import Mathlib

/-!
go-mail: message assembly and SMTP dispatch

A shallow embedding of `mail.go` (package `gomail`).

Modelling conventions:

* A Go `string` holding valid UTF-8 is a Lean `String`; `[]byte` is `List UInt8`; the
  `bytes.Buffer` of `SendMail` is the `String` of everything written to it so far.
* `*mail.Address` and `*SmtpServer` are always non-nil when reached through the package's
  own constructors and setters, and nothing mutates them in place; they are values here.
* A Go `map[string]string` is an association list with distinct keys (`AList`).  The order in
  which a `range` statement visits a map is chosen by the runtime; it is an input of the
  model (`Env.headerOrder`, `Env.attachOrder`).
* Everything the package consumes from outside (clock, address parser and formatter,
  filesystem, MIME table, SMTP transport) is a field of `Env`.
* A run-time panic (index out of range) is the result `none` of `addMailAddress`.
-/

set_option linter.dupNamespace false

namespace gomail

/-! ## Errors -/

/-- Go `error` values, separated by origin. -/
inductive GoError where
  /-- `errors.New(msg)` inside this package -/
  | new (msg : String)
  /-- error returned by `mail.ParseAddressList` -/
  | parse (msg : String)
  /-- error returned by `ioutil.ReadFile` -/
  | file (msg : String)
  /-- error returned by `smtp.SendMail` -/
  | smtp (msg : String)
  deriving DecidableEq, Repr

/-- The error of `SendMail` for an empty sender address (mail.go:156). -/
def MissingSender : GoError := GoError.new "送信元を未指定にすることはできません"

/-- The error of `SendMail` for an empty `To` list (mail.go:165). -/
def MissingRecipient : GoError := GoError.new "宛先を指定してください"

/-- The error of `SendMail` for an attachment path that does not exist (mail.go:201). -/
def MissingAttachment : GoError := GoError.new "添付ファイルが存在しません"

/-- The error of `AddHeader` for a key that is already present (mail.go:134). -/
def DuplicateHeader : GoError := GoError.new "既に存在するキーです"

/-- The error of `addMailAddress` for an unknown destination (mail.go:328). -/
def InvalidDest : GoError := GoError.new "不正なアドレス追加先が検出されました"

/-! ## Data model -/

/-- The struct `mail.Address` of `net/mail`. -/
structure Address where
  Name : String
  Address : String
  deriving DecidableEq, Repr

/-- The struct `SmtpServer` (mail.go:19). `SmtpPort` is a `uint16`. -/
structure SmtpServer where
  SmtpHost : String
  SmtpPort : Nat
  SmtpUsername : String
  SmtpPassword : String
  SmtpSecret : String
  Identity : String
  deriving DecidableEq, Repr

/-- A Go `map[string]string`. -/
abbrev StrMap := AList (fun _ : String => String)

/-- One key/value pair of a `map[string]string`. -/
abbrev StrEntry := Sigma (fun _ : String => String)

/-- The struct `MailContent` (mail.go:28). -/
structure MailContent where
  From : Address
  To : List Address
  Cc : List Address
  Bcc : List Address
  ReplyTo : Address
  Subject : String
  Body : String
  BodyContentType : String
  Headers : StrMap
  Attachments : StrMap
  ServerInfo : SmtpServer

/-- The value of `smtp.Auth` built by `smtp.PlainAuth` or `smtp.CRAMMD5Auth`. -/
inductive Auth where
  | PlainAuth (identity username password host : String)
  | CRAMMD5Auth (username secret : String)
  deriving DecidableEq, Repr

/-- The arguments of one call of `smtp.SendMail`. -/
structure SmtpCall where
  addr : String
  auth : Auth
  sender : String
  recipients : List String
  msg : String
  deriving DecidableEq, Repr

/-- What the package consumes from its surroundings. -/
structure Env where
  /-- `time.Now().Format(time.RFC1123Z)` -/
  now : String
  /-- `(*mail.Address).String` -/
  addressString : Address → String
  /-- `mail.ParseAddressList` -/
  ParseAddressList : String → Except GoError (List Address)
  /-- `io.FileExists` of go-enjaxel (its boolean result) -/
  FileExists : String → Bool
  /-- `ioutil.ReadFile` -/
  ReadFile : String → Except GoError (List UInt8)
  /-- `mime.TypeByExtension` -/
  TypeByExtension : String → String
  /-- the order in which `range m.Headers` visits the entries -/
  headerOrder : List StrEntry → List StrEntry
  /-- the order in which `range m.Attachments` visits the entries -/
  attachOrder : List StrEntry → List StrEntry
  /-- `smtp.SendMail`: `none` is a nil error -/
  smtpSendMail : SmtpCall → Option GoError

/-- A runtime's `range` visits every entry of the map exactly once. -/
def Env.RangeOk (env : Env) : Prop :=
  (∀ l, (env.headerOrder l).Perm l) ∧ (∀ l, (env.attachOrder l).Perm l)

/-- What a call of `SendMail` returns and the calls of the transport it made. -/
structure SendResult where
  err : Option GoError
  calls : List SmtpCall
  deriving DecidableEq, Repr

/-! ## Library functions used by the package -/

/-- The bytes of a Go string: `[]byte(s)`. -/
def bytesOf (s : String) : List UInt8 :=
  s.data.flatMap String.utf8EncodeChar

namespace base64

/-- The alphabet of `base64.StdEncoding`. -/
def encodeStd : String :=
  "ABCDEFGHIJKLMNOPQRSTUVWXYZabcdefghijklmnopqrstuvwxyz0123456789+/"

/-- The character of the 6-bit value `v` in the standard alphabet. -/
def encChar (v : Nat) : Char :=
  encodeStd.data.getD (v % 64) 'A'

/-- The function `(*Encoding).Encode` of `encoding/base64` for `StdEncoding` (padding `=`):
three bytes give four characters, a remainder of one or two bytes is padded. -/
def Encode : List UInt8 → List Char
  | [] => []
  | [a] =>
    let v := a.toNat * 65536
    [encChar (v / 262144), encChar (v / 4096), '=', '=']
  | [a, b] =>
    let v := a.toNat * 65536 + b.toNat * 256
    [encChar (v / 262144), encChar (v / 4096), encChar (v / 64), '=']
  | a :: b :: c :: rest =>
    let v := a.toNat * 65536 + b.toNat * 256 + c.toNat
    encChar (v / 262144) :: encChar (v / 4096) :: encChar (v / 64) :: encChar v :: Encode rest

/-- The function `(*Encoding).EncodeToString` for `StdEncoding`. -/
def EncodeToString (src : List UInt8) : String :=
  String.mk (Encode src)

end base64

namespace filepath

/-- The function `filepath.Split` with separator `/`: the path is cut after its last
separator. -/
def Split (path : String) : String × String :=
  let r := path.data.reverse
  (String.mk (r.dropWhile (fun c => c != '/')).reverse,
   String.mk (r.takeWhile (fun c => c != '/')).reverse)

/-- The loop of `filepath.Ext`: `rev` holds the characters not yet visited, last first, and
`acc` the ones already visited. -/
def extLoop : List Char → List Char → List Char
  | [], _ => []
  | c :: rev, acc =>
    if c = '/' then []
    else if c = '.' then c :: acc
    else extLoop rev (c :: acc)

/-- The function `filepath.Ext`: the suffix beginning at the final dot of the last element
of the path, empty if there is no dot. -/
def Ext (path : String) : String :=
  String.mk (extLoop path.data.reverse [])

end filepath

/-! ## Constructors (mail.go:42-96, 274-297) -/

def NewSmtpServer (host : String) (port : Nat) (username password : String) : SmtpServer :=
  { SmtpHost := host, SmtpPort := port, SmtpUsername := username, SmtpPassword := password,
    SmtpSecret := "", Identity := "" }

def NewSmtpServerWithID (host : String) (port : Nat) (username password identity : String) :
    SmtpServer :=
  { SmtpHost := host, SmtpPort := port, SmtpUsername := username, SmtpPassword := password,
    SmtpSecret := "", Identity := identity }

def NewSmtpServerCRAMMD5 (host : String) (port : Nat) (username secret : String) : SmtpServer :=
  { SmtpHost := host, SmtpPort := port, SmtpUsername := username, SmtpPassword := "",
    SmtpSecret := secret, Identity := "" }

def SmtpServer.newMessage (s : SmtpServer) (subject body bodyContentType : String) :
    MailContent :=
  let a : Address := { Name := "", Address := "" }
  { From := a, ReplyTo := a, Subject := subject, Body := body,
    BodyContentType := bodyContentType, ServerInfo := s,
    To := [], Cc := [], Bcc := [], Headers := ∅, Attachments := ∅ }

def SmtpServer.NewMessage (s : SmtpServer) (subject body : String) : MailContent :=
  s.newMessage subject body "text/plain"

def SmtpServer.NewHTMLMessage (s : SmtpServer) (subject body : String) : MailContent :=
  s.newMessage subject body "text/html"

/-! ## Setters (mail.go:112-149, 299-333) -/

/-- The method `addMailAddress`. The result `none` is the panic of `emails[0]` on an empty
list; otherwise the message after the call and the returned error. -/
def MailContent.addMailAddress (env : Env) (m : MailContent) (address dest : String) :
    Option (MailContent × Option GoError) :=
  match env.ParseAddressList address with
  | .error err => some (m, some err)
  | .ok emails =>
    if dest = "from" then
      match emails with
      | [] => none
      | e :: _ => some ({ m with From := e }, none)
    else if dest = "to" then
      some ({ m with To := emails.foldl (fun acc a => acc ++ [a]) m.To }, none)
    else if dest = "cc" then
      some ({ m with Cc := emails.foldl (fun acc cc => acc ++ [cc]) m.Cc }, none)
    else if dest = "bcc" then
      some ({ m with Bcc := emails.foldl (fun acc bcc => acc ++ [bcc]) m.Bcc }, none)
    else if dest = "reply" then
      match emails with
      | [] => none
      | e :: _ => some ({ m with ReplyTo := e }, none)
    else
      some (m, some InvalidDest)

def MailContent.SetFrom (env : Env) (m : MailContent) (v : String) :=
  m.addMailAddress env v "from"

def MailContent.AddTo (env : Env) (m : MailContent) (toAddrs : String) :=
  m.addMailAddress env toAddrs "to"

def MailContent.AddCc (env : Env) (m : MailContent) (cc : String) :=
  m.addMailAddress env cc "cc"

def MailContent.AddBcc (env : Env) (m : MailContent) (bcc : String) :=
  m.addMailAddress env bcc "bcc"

def MailContent.SetReplyTo (env : Env) (m : MailContent) (reply : String) :=
  m.addMailAddress env reply "reply"

/-- The method `AddHeader`: the message after the call and the returned error. -/
def MailContent.AddHeader (m : MailContent) (key value : String) :
    MailContent × Option GoError :=
  if (m.Headers.lookup key).isSome then
    (m, some DuplicateHeader)
  else
    ({ m with Headers := m.Headers.insert key value }, none)

/-- The method `SetHeader`. -/
def MailContent.SetHeader (m : MailContent) (key value : String) : MailContent :=
  { m with Headers := m.Headers.insert key value }

/-- The method `Attach`. -/
def MailContent.Attach (m : MailContent) (file : String) : MailContent :=
  let filename := (filepath.Split file).2
  { m with Attachments := m.Attachments.insert filename file }

/-! ## Sending (mail.go:151-271, 335-362) -/

/-- The constant `boundary` of `SendMail`. -/
def boundary : String := "0141caffe046497"

/-- The function `getStringAddress`. -/
def getStringAddress (env : Env) (mailobj : List Address) : String :=
  let strs := mailobj.foldl (fun strs a => strs ++ [env.addressString a]) []
  ",".intercalate strs

/-- The method `getToAddressList`. -/
def MailContent.getToAddressList (m : MailContent) : List String :=
  let tolist : List String := []
  let tolist := m.To.foldl (fun tolist a => tolist ++ [a.Address]) tolist
  let tolist := m.Cc.foldl (fun tolist cc => tolist ++ [cc.Address]) tolist
  let tolist := m.Bcc.foldl (fun tolist bcc => tolist ++ [bcc.Address]) tolist
  tolist

/-- The loop over `m.Headers` (mail.go:183-185), in the order of the visit. -/
def writeHeaders : List StrEntry → String → String
  | [], buf => buf
  | ⟨key, value⟩ :: rest, buf => writeHeaders rest (buf ++ (key ++ ": " ++ value ++ "\r\n"))

/-- The loop that writes the encoded bytes `b[i..]` and breaks the line after every 76th
(mail.go:231-236). -/
def writeWrapped : List Char → Nat → String → String
  | [], _, buf => buf
  | c :: b, i, buf =>
    let buf := buf.push c
    let buf := if (i + 1) % 76 = 0 then buf ++ "\r\n" else buf
    writeWrapped b (i + 1) buf

/-- The loop over `m.Attachments` (mail.go:199-239), in the order of the visit: the buffer
after the loop, or the error it returns with. -/
def writeAttachments (env : Env) : List StrEntry → String → Except GoError String
  | [], buf => .ok buf
  | ⟨filename, abspath⟩ :: rest, buf =>
    if !env.FileExists abspath then .error MissingAttachment
    else
      let buf := buf ++ ("\r\n\r\n--" ++ boundary ++ "\r\n")
      let ext := filepath.Ext filename
      let mimetype := env.TypeByExtension ext
      let buf :=
        if mimetype ≠ "" then buf ++ ("Content-Type: " ++ mimetype ++ "\r\n")
        else buf ++ "Content-Type: application/octet-stream\r\n"
      let buf := buf ++ "Content-Transfer-Encoding: base64\r\n"
      let buf := buf ++ "Content-Disposition: attachment; filename=\"=?UTF-8?B?"
      let buf := buf ++ base64.EncodeToString (bytesOf filename)
      let buf := buf ++ "?=\"\r\n\r\n"
      match env.ReadFile abspath with
      | .error err => .error err
      | .ok data =>
        let b := base64.Encode data
        let buf := writeWrapped b 0 buf
        let buf := buf ++ ("\r\n--" ++ boundary)
        writeAttachments env rest buf

/-- The method `SendMail`. -/
def MailContent.SendMail (env : Env) (m : MailContent) : SendResult :=
  let buf := ""
  if m.From.Address = "" then { err := some MissingSender, calls := [] }
  else
    let buf := buf ++ ("From: " ++ env.addressString m.From ++ "\r\n")
    let buf := buf ++ ("Date: " ++ env.now ++ "\r\n")
    if m.To.length = 0 then { err := some MissingRecipient, calls := [] }
    else
      let buf := buf ++ ("To: " ++ getStringAddress env m.To ++ "\r\n")
      let buf :=
        if m.Cc.length > 0 then buf ++ ("Cc: " ++ getStringAddress env m.Cc ++ "\r\n") else buf
      let subject := "=?UTF-8?B?" ++ base64.EncodeToString (bytesOf m.Subject) ++ "?="
      let buf := buf ++ ("Subject: " ++ subject ++ "\r\n")
      let buf :=
        if m.ReplyTo.Address ≠ "" then
          buf ++ ("Reply-To: " ++ env.addressString m.ReplyTo ++ "\r\n")
        else buf
      let buf :=
        if m.Headers.entries.length > 0 then
          writeHeaders (env.headerOrder m.Headers.entries) buf
        else buf
      let buf :=
        if m.Attachments.entries.length > 0 then
          (buf ++ ("Content-Type: multipart/mixed; boundary=" ++ boundary ++ "\r\n"))
            ++ ("\r\n--" ++ boundary ++ "\r\n")
        else buf
      let bct := "Content-Type: " ++ m.BodyContentType ++ "; charset=utf-8\r\n\r\n"
      let buf := buf ++ bct
      let buf := buf ++ m.Body
      let buf := buf ++ "\r\n"
      let after : Except GoError String :=
        if m.Attachments.entries.length > 0 then
          match writeAttachments env (env.attachOrder m.Attachments.entries) buf with
          | .error err => .error err
          | .ok buf => .ok (buf ++ "--")
        else .ok buf
      match after with
      | .error err => { err := some err, calls := [] }
      | .ok buf =>
        let s := m.ServerInfo
        let auth :=
          if s.SmtpSecret = "" then
            Auth.PlainAuth s.Identity s.SmtpUsername s.SmtpPassword s.SmtpHost
          else
            Auth.CRAMMD5Auth s.SmtpUsername s.SmtpSecret
        let smtpaddr := s.SmtpHost ++ ":" ++ toString s.SmtpPort
        let call : SmtpCall :=
          { addr := smtpaddr, auth := auth, sender := m.From.Address,
            recipients := m.getToAddressList, msg := buf }
        { err := env.smtpSendMail call, calls := [call] }

/-- The method `EasySendMail` (mail.go:98). -/
def SmtpServer.EasySendMail (env : Env) (s : SmtpServer) (v toAddrs subject body : String) :
    Option SendResult :=
  let m := s.NewMessage subject body
  match m.SetFrom env v with
  | none => none
  | some (_, some err) => some { err := some err, calls := [] }
  | some (m, none) =>
    match m.AddTo env toAddrs with
    | none => none
    | some (_, some err) => some { err := some err, calls := [] }
    | some (m, none) => some (m.SendMail env)

end gomail

namespace gomail

/-! ## A concrete environment for the worked examples -/

/-- A toy address parser: the entries are separated by commas and each needs an `@`. -/
def demoParse (s : String) : Except GoError (List Address) :=
  if s = "" then .error (GoError.parse "mail: no address")
  else if (s.data.splitOn ',').all (fun e => e.contains '@') then
    .ok ((s.data.splitOn ',').map (fun e => { Name := "", Address := String.mk e }))
  else .error (GoError.parse "mail: missing @ in address")

/-- A toy environment: two readable files (`line.bin` holds 57 bytes, which encode to
exactly 76 characters), one unreadable file, maps visited in stored order, and a relay that
accepts everything. -/
def demoEnv : Env where
  now := "Mon, 02 Jan 2006 15:04:05 -0700"
  addressString a := "<" ++ a.Address ++ ">"
  ParseAddressList := demoParse
  FileExists p := p = "/data/a.txt" || p = "/data/locked.txt" || p = "/data/line.bin"
  ReadFile p :=
    if p = "/data/a.txt" then .ok (bytesOf "Hello")
    else if p = "/data/line.bin" then .ok (List.replicate 57 65)
    else if p = "/data/locked.txt" then .error (GoError.file "permission denied")
    else .error (GoError.file "no such file or directory")
  TypeByExtension ext := if ext = ".txt" then "text/plain; charset=utf-8" else ""
  headerOrder l := l
  attachOrder l := l
  smtpSendMail _ := none

/-- The profile of the worked examples. -/
def demoServer : SmtpServer := NewSmtpServer "smtp.example.com" 587 "u" "p"

/-- A message from `a@x.com` to `b@y.com`. -/
def demoMail : MailContent :=
  { demoServer.NewMessage "Hi" "Test" with
    From := { Name := "", Address := "a@x.com" }
    To := [{ Name := "", Address := "b@y.com" }] }

/-- The call of the transport for `demoMail`. -/
def demoCall : SmtpCall :=
  { addr := "smtp.example.com:587"
    auth := Auth.PlainAuth "" "u" "p" "smtp.example.com"
    sender := "a@x.com"
    recipients := ["b@y.com"]
    msg := "From: <a@x.com>\r\nDate: Mon, 02 Jan 2006 15:04:05 -0700\r\nTo: <b@y.com>\r\n"
      ++ "Subject: =?UTF-8?B?SGk=?=\r\nContent-Type: text/plain; charset=utf-8\r\n\r\nTest\r\n" }

/-- The example message with the subject `Hello`. -/
def helloMail : MailContent :=
  { demoMail with Subject := "Hello" }

/-- The example message with the attachment `line.bin`. -/
def lineMail : MailContent :=
  demoMail.Attach "/data/line.bin"

/-- The example message with two attachments: `report.pdf`, which is absent, and
`locked.txt`, which exists and cannot be read. -/
def lockedMail : MailContent :=
  (demoMail.Attach "/data/report.pdf").Attach "/data/locked.txt"

/-- The same two attachments stored the other way round, so that the toy runtime visits the
absent `report.pdf` before the unreadable `locked.txt`. -/
def absentFirstMail : MailContent :=
  (demoMail.Attach "/data/locked.txt").Attach "/data/report.pdf"

end gomail

/-! ## The phases of `SendMail`

The same code as `MailContent.SendMail`, cut at the places where the theorems look at the
buffer; `SendMail_eq` shows that the two agree. -/

namespace gomail

/-- The buffer of `SendMail` after the fixed headers (mail.go:159-180). -/
def MailContent.fixedBuf (env : Env) (m : MailContent) : String :=
  let buf := ""
  let buf := buf ++ ("From: " ++ env.addressString m.From ++ "\r\n")
  let buf := buf ++ ("Date: " ++ env.now ++ "\r\n")
  let buf := buf ++ ("To: " ++ getStringAddress env m.To ++ "\r\n")
  let buf :=
    if m.Cc.length > 0 then buf ++ ("Cc: " ++ getStringAddress env m.Cc ++ "\r\n") else buf
  let subject := "=?UTF-8?B?" ++ base64.EncodeToString (bytesOf m.Subject) ++ "?="
  let buf := buf ++ ("Subject: " ++ subject ++ "\r\n")
  if m.ReplyTo.Address ≠ "" then
    buf ++ ("Reply-To: " ++ env.addressString m.ReplyTo ++ "\r\n")
  else buf

/-- The buffer of `SendMail` after the body (mail.go:182-196), from the buffer before. -/
def MailContent.bodyBuf (env : Env) (m : MailContent) (buf : String) : String :=
  let buf :=
    if m.Headers.entries.length > 0 then
      writeHeaders (env.headerOrder m.Headers.entries) buf
    else buf
  let buf :=
    if m.Attachments.entries.length > 0 then
      (buf ++ ("Content-Type: multipart/mixed; boundary=" ++ boundary ++ "\r\n"))
        ++ ("\r\n--" ++ boundary ++ "\r\n")
    else buf
  let bct := "Content-Type: " ++ m.BodyContentType ++ "; charset=utf-8\r\n\r\n"
  let buf := buf ++ bct
  let buf := buf ++ m.Body
  buf ++ "\r\n"

/-- The buffer of `SendMail` after the attachments (mail.go:198-242), from the buffer
before, or the error the loop returns with. -/
def MailContent.attachBuf (env : Env) (m : MailContent) (buf : String) :
    Except GoError String :=
  if m.Attachments.entries.length > 0 then
    match writeAttachments env (env.attachOrder m.Attachments.entries) buf with
    | .error err => .error err
    | .ok buf => .ok (buf ++ "--")
  else .ok buf

/-- The call of the transport for the finished buffer (mail.go:244-270). -/
def MailContent.transportCall (m : MailContent) (buf : String) : SmtpCall :=
  let s := m.ServerInfo
  let auth :=
    if s.SmtpSecret = "" then
      Auth.PlainAuth s.Identity s.SmtpUsername s.SmtpPassword s.SmtpHost
    else
      Auth.CRAMMD5Auth s.SmtpUsername s.SmtpSecret
  let smtpaddr := s.SmtpHost ++ ":" ++ toString s.SmtpPort
  { addr := smtpaddr, auth := auth, sender := m.From.Address,
    recipients := m.getToAddressList, msg := buf }

/-- The message bytes `SendMail` builds when both checks pass. -/
def MailContent.serialized (env : Env) (m : MailContent) : Except GoError String :=
  m.attachBuf env (m.bodyBuf env (m.fixedBuf env))

end gomail

/-! ## Notions used to state the properties -/

namespace gomail

/-- The buffer `buf` has the line `l`: the text `l` followed by CRLF, at the start of the
buffer or right after a CRLF. -/
def HasLine (buf l : String) : Prop :=
  ∃ pre post, buf = pre ++ l ++ "\r\n" ++ post ∧ (pre = "" ∨ ∃ p, pre = p ++ "\r\n")

/-- The texts of a list, one after the other. -/
def concat : List String → String
  | [] => ""
  | a :: l => a ++ concat l

/-- The line `Key: Value` with its CRLF that `SendMail` writes for a custom header. -/
def headerLine (e : StrEntry) : String :=
  e.1 ++ ": " ++ e.2 ++ "\r\n"

/-- The characters the wrapping loop appends for the encoded bytes `b[i..]`: after every
byte whose index `i` has `(i + 1) % 76 = 0` comes a CRLF. -/
def wrapped : List Char → Nat → List Char
  | [], _ => []
  | c :: b, i =>
    c :: (if (i + 1) % 76 = 0 then '\r' :: '\n' :: wrapped b (i + 1) else wrapped b (i + 1))

/-- The text `SendMail` writes for one attachment whose file holds `data`
(mail.go:205-238): delimiter, part headers, wrapped payload, trailing delimiter. -/
def attachmentPart (env : Env) (filename : String) (data : List UInt8) : String :=
  ("\r\n\r\n--" ++ boundary ++ "\r\n")
    ++ (if env.TypeByExtension (filepath.Ext filename) ≠ "" then
          "Content-Type: " ++ env.TypeByExtension (filepath.Ext filename) ++ "\r\n"
        else "Content-Type: application/octet-stream\r\n")
    ++ "Content-Transfer-Encoding: base64\r\n"
    ++ "Content-Disposition: attachment; filename=\"=?UTF-8?B?"
    ++ base64.EncodeToString (bytesOf filename)
    ++ "?=\"\r\n\r\n"
    ++ String.mk (wrapped (base64.Encode data) 0)
    ++ ("\r\n--" ++ boundary)

/-- The pieces of a text between its CRLF pairs (like `strings.Split(s, "\r\n")`: a text
that ends in CRLF has an empty last piece). -/
def splitCRLF : List Char → List (List Char)
  | [] => [[]]
  | [c] => [[c]]
  | c :: d :: rest =>
    if c = '\r' ∧ d = '\n' then [] :: splitCRLF rest
    else
      match splitCRLF (d :: rest) with
      | [] => [[c]]
      | l :: ls => (c :: l) :: ls

/-- The pieces of a wrapped payload when the first line has room for `k` characters: every
piece before the last is full (the first has `k` characters, the others 76) and the last
is not. -/
def WrappedLines : Nat → List (List Char) → Prop
  | _, [] => False
  | k, [l] => l.length < k
  | k, l :: l2 :: ls => l.length = k ∧ WrappedLines 76 (l2 :: ls)

/-- The example message with two attachments that exist and can be read. -/
def twoMail : MailContent :=
  (demoMail.Attach "/data/a.txt").Attach "/data/line.bin"

/-- The text has no CR and no LF. -/
def NoCRLF (s : String) : Prop :=
  ∀ c ∈ s.data, c ≠ '\r' ∧ c ≠ '\n'

/-- A text made of CRLF pairs and of characters other than CR and LF. -/
def crlfText : List Char → Bool
  | [] => true
  | [c] => c != '\r' && c != '\n'
  | c :: d :: rest =>
    if c = '\r' then d == '\n' && crlfText rest
    else c != '\n' && crlfText (d :: rest)

/-- In the text every LF comes right after a CR and every CR comes right before an LF. -/
def CRLFThroughout (l : List Char) : Prop :=
  (∀ i, l[i]? = some '\n' → ∃ j, i = j + 1 ∧ l[j]? = some '\r') ∧
  (∀ i, l[i]? = some '\r' → l[i + 1]? = some '\n')

/-- The texts that a message and its surroundings bring into the buffer have no CR and no
LF: body, body content type, header keys and values, formatted mailboxes and the MIME
types found for the attachments. -/
def MailContent.CleanText (env : Env) (m : MailContent) : Prop :=
  NoCRLF m.Body ∧ NoCRLF m.BodyContentType ∧
  (∀ e ∈ m.Headers.entries, NoCRLF e.1 ∧ NoCRLF e.2) ∧
  NoCRLF (env.addressString m.From) ∧ NoCRLF (env.addressString m.ReplyTo) ∧
  (∀ a ∈ m.To, NoCRLF (env.addressString a)) ∧
  (∀ a ∈ m.Cc, NoCRLF (env.addressString a)) ∧
  (∀ e ∈ m.Attachments.entries, NoCRLF (env.TypeByExtension (filepath.Ext e.1)))

/-- The toy environment with a runtime that visits the headers in the opposite order. -/
def demoEnvRev : Env :=
  { demoEnv with headerOrder := List.reverse }

/-- The example message with the headers `X-A` and `X-B`, added in this order. -/
def tagMail : MailContent :=
  ((demoMail.AddHeader "X-A" "1").1.AddHeader "X-B" "2").1

/-- The example message with a `Bcc` recipient. -/
def bccMail : MailContent :=
  { demoMail with Bcc := [{ Name := "", Address := "hidden@z.com" }] }

/-- The toy environment with a parser that accepts the empty group
`undisclosed-recipients:;` and returns no entry for it. -/
def groupEnv : Env :=
  { demoEnv with
    ParseAddressList := fun s =>
      if s = "undisclosed-recipients:;" then .ok [] else demoParse s }

/-- The text without its CRLF pairs. -/
def removeCRLF : List Char → List Char
  | [] => []
  | [c] => [c]
  | c :: d :: rest =>
    if c = '\r' ∧ d = '\n' then removeCRLF rest
    else c :: removeCRLF (d :: rest)

/-- The 6-bit value of a character of the standard alphabet. -/
def base64.decChar (c : Char) : Option Nat :=
  if base64.encodeStd.data.indexOf c < 64 then some (base64.encodeStd.data.indexOf c)
  else none

/-- The function `(*Encoding).DecodeString` of `encoding/base64` for `StdEncoding` on a
text without line breaks: four characters give three bytes, and the last four may end in
one or two `=`. -/
def base64.Decode : List Char → Option (List UInt8)
  | [] => some []
  | c0 :: c1 :: c2 :: c3 :: rest =>
    if c2 = '=' ∧ c3 = '=' ∧ rest = [] then
      match base64.decChar c0, base64.decChar c1 with
      | some v0, some v1 =>
        let v := v0 * 262144 + v1 * 4096
        some [UInt8.ofNat (v / 65536)]
      | _, _ => none
    else if c3 = '=' ∧ rest = [] then
      match base64.decChar c0, base64.decChar c1, base64.decChar c2 with
      | some v0, some v1, some v2 =>
        let v := v0 * 262144 + v1 * 4096 + v2 * 64
        some [UInt8.ofNat (v / 65536), UInt8.ofNat (v / 256)]
      | _, _, _ => none
    else
      match base64.decChar c0, base64.decChar c1, base64.decChar c2, base64.decChar c3,
        base64.Decode rest with
      | some v0, some v1, some v2, some v3, some tl =>
        let v := v0 * 262144 + v1 * 4096 + v2 * 64 + v3
        some (UInt8.ofNat (v / 65536) :: UInt8.ofNat (v / 256) :: UInt8.ofNat v :: tl)
      | _, _, _, _, _ => none
  | _ => none

end gomail

/-! ## Theorems -/

namespace gomail

theorem SendMail_eq (env : Env) (m : MailContent) (hf : m.From.Address ≠ "")
    (ht : m.To ≠ []) :
    m.SendMail env =
      match m.serialized env with
      | .error err => { err := some err, calls := [] }
      | .ok buf =>
        { err := env.smtpSendMail (m.transportCall buf), calls := [m.transportCall buf] } := by
  have ht' : m.To.length ≠ 0 := by simpa using ht
  unfold MailContent.SendMail MailContent.serialized
  simp only [hf, ht', if_false]
  rfl

theorem SendMail_missing_sender_aux (env : Env) (m : MailContent)
    (hf : m.From.Address = "") :
    m.SendMail env = { err := some MissingSender, calls := [] } := by
  unfold MailContent.SendMail
  simp [hf]

theorem SendMail_missing_recipient_aux (env : Env) (m : MailContent)
    (hf : m.From.Address ≠ "") (ht : m.To = []) :
    m.SendMail env = { err := some MissingRecipient, calls := [] } := by
  unfold MailContent.SendMail
  simp [hf, ht]

/-- C1: a message whose sender address is empty is rejected with the missing-sender error
and the transport is not called, whatever the rest of the message is. -/
theorem SendMail_missing_sender (env : Env) (m : MailContent) (hf : m.From.Address = "") :
    m.SendMail env = { err := some MissingSender, calls := [] } := by
  unfold MailContent.SendMail
  simp [hf]

theorem SendMail_missing_sender_witness :
    (demoServer.NewMessage "Hi" "Test").From.Address = "" ∧
    (demoServer.NewMessage "Hi" "Test").SendMail demoEnv
      = { err := some MissingSender, calls := [] } :=
  ⟨rfl, SendMail_missing_sender demoEnv (demoServer.NewMessage "Hi" "Test") rfl⟩

/-- C2: a message with a sender address and an empty `To` list is rejected with the
missing-recipient error and the transport is not called, whatever `Cc` and `Bcc` hold. -/
theorem SendMail_missing_recipient (env : Env) (m : MailContent)
    (hf : m.From.Address ≠ "") (ht : m.To = []) :
    m.SendMail env = { err := some MissingRecipient, calls := [] } := by
  unfold MailContent.SendMail
  simp [hf, ht]

theorem SendMail_missing_recipient_witness :
    ({ demoMail with To := [], Cc := [⟨"", "c@z.com"⟩], Bcc := [⟨"", "d@z.com"⟩] } :
        MailContent).From.Address ≠ "" ∧
    ({ demoMail with To := [], Cc := [⟨"", "c@z.com"⟩], Bcc := [⟨"", "d@z.com"⟩] } :
        MailContent).SendMail demoEnv = { err := some MissingRecipient, calls := [] } :=
  ⟨by decide,
   SendMail_missing_recipient demoEnv
     { demoMail with To := [], Cc := [⟨"", "c@z.com"⟩], Bcc := [⟨"", "d@z.com"⟩] }
     (by decide) rfl⟩

/-! ### The shape of the buffer -/

theorem writeHeaders_eq (l : List StrEntry) (buf : String) :
    writeHeaders l buf = buf ++ concat (l.map headerLine) := by
  induction l generalizing buf with
  | nil => simp [writeHeaders, concat]
  | cons a rest ih =>
    obtain ⟨key, value⟩ := a
    simp only [writeHeaders, List.map_cons, concat, headerLine]
    rw [ih]
    simp [String.append_assoc]

theorem writeWrapped_eq (b : List Char) (i : Nat) (buf : String) :
    writeWrapped b i buf = buf ++ String.mk (wrapped b i) := by
  induction b generalizing i buf with
  | nil =>
    apply String.ext
    simp [writeWrapped, wrapped]
  | cons c rest ih =>
    simp only [writeWrapped, wrapped]
    rw [ih]
    apply String.ext
    by_cases h : (i + 1) % 76 = 0
    · simp [h]
    · simp [h]

/-- The buffer before the body is a prefix of the buffer after it. -/
theorem bodyBuf_append (env : Env) (m : MailContent) (buf : String) :
    ∃ t, m.bodyBuf env buf = buf ++ t := by
  unfold MailContent.bodyBuf
  simp only [writeHeaders_eq]
  split <;> split <;> exact ⟨_, by simp only [String.append_assoc]; rfl⟩

/-- One round of the attachment loop for a file that exists and can be read. -/
theorem writeAttachments_cons_ok (env : Env) (filename abspath : String)
    (rest : List StrEntry) (buf : String) (data : List UInt8)
    (hex : env.FileExists abspath = true) (hrd : env.ReadFile abspath = .ok data) :
    writeAttachments env (⟨filename, abspath⟩ :: rest) buf
      = writeAttachments env rest (buf ++ attachmentPart env filename data) := by
  simp only [writeAttachments, hex, hrd, Bool.not_true, Bool.false_eq_true, if_false,
    writeWrapped_eq]
  congr 1
  unfold attachmentPart
  split <;> simp only [String.append_assoc]

/-- The attachment loop only appends to the buffer. -/
theorem writeAttachments_append (env : Env) (l : List StrEntry) (buf b : String)
    (h : writeAttachments env l buf = .ok b) : ∃ t, b = buf ++ t := by
  induction l generalizing buf with
  | nil =>
    simp only [writeAttachments, Except.ok.injEq] at h
    exact ⟨"", by rw [← h]; apply String.ext; simp⟩
  | cons a rest ih =>
    obtain ⟨filename, abspath⟩ := a
    by_cases hex : env.FileExists abspath = true
    · cases hrd : env.ReadFile abspath with
      | error err => simp [writeAttachments, hex, hrd] at h
      | ok data =>
        rw [writeAttachments_cons_ok env filename abspath rest buf data hex hrd] at h
        obtain ⟨t, ht⟩ := ih _ h
        exact ⟨attachmentPart env filename data ++ t, by rw [ht, String.append_assoc]⟩
    · simp [writeAttachments, hex] at h

/-- The attachment loop fails only at an entry whose file is absent or unreadable. -/
theorem writeAttachments_error (env : Env) (l : List StrEntry) (buf : String) (err : GoError)
    (h : writeAttachments env l buf = .error err) :
    ∃ e ∈ l, env.FileExists e.2 = false ∨ ∃ err2, env.ReadFile e.2 = .error err2 := by
  induction l generalizing buf with
  | nil => simp [writeAttachments] at h
  | cons a rest ih =>
    obtain ⟨filename, abspath⟩ := a
    by_cases hex : env.FileExists abspath = true
    · cases hrd : env.ReadFile abspath with
      | error err2 =>
        exact ⟨⟨filename, abspath⟩, List.mem_cons_self _ _, Or.inr ⟨err2, hrd⟩⟩
      | ok data =>
        simp only [writeAttachments, hex, hrd, Bool.not_true, Bool.false_eq_true,
          if_false] at h
        obtain ⟨e, he, hfail⟩ := ih _ h
        exact ⟨e, List.mem_cons_of_mem _ he, hfail⟩
    · exact ⟨⟨filename, abspath⟩, List.mem_cons_self _ _, Or.inl (by simpa using hex)⟩

theorem attachBuf_append (env : Env) (m : MailContent) (buf b : String)
    (h : m.attachBuf env buf = .ok b) : ∃ t, b = buf ++ t := by
  unfold MailContent.attachBuf at h
  split at h
  · split at h
    · cases h
    · rename_i b2 hw
      obtain ⟨t, ht⟩ := writeAttachments_append env _ _ _ hw
      simp only [Except.ok.injEq] at h
      exact ⟨t ++ "--", by rw [← h, ht, String.append_assoc]⟩
  · simp only [Except.ok.injEq] at h
    exact ⟨"", by rw [← h]; apply String.ext; simp⟩

theorem attachBuf_error (env : Env) (m : MailContent) (buf : String) (err : GoError)
    (h : m.attachBuf env buf = .error err) :
    ∃ e ∈ env.attachOrder m.Attachments.entries,
      env.FileExists e.2 = false ∨ ∃ err2, env.ReadFile e.2 = .error err2 := by
  unfold MailContent.attachBuf at h
  split at h
  · split at h
    · rename_i err2 hw
      exact writeAttachments_error env _ _ _ hw
    · cases h
  · cases h

/-- The fixed headers end with the `Subject:` line and, if there is one, the `Reply-To:`
line; the `Subject:` line follows a CRLF. -/
theorem fixedBuf_subject (env : Env) (m : MailContent) :
    m.fixedBuf env =
      (("From: " ++ env.addressString m.From ++ "\r\n" ++ ("Date: " ++ env.now ++ "\r\n")
          ++ ("To: " ++ getStringAddress env m.To)
          ++ (if m.Cc.length > 0 then "\r\n" ++ ("Cc: " ++ getStringAddress env m.Cc) else ""))
        ++ "\r\n")
      ++ ("Subject: =?UTF-8?B?" ++ base64.EncodeToString (bytesOf m.Subject) ++ "?=")
      ++ "\r\n"
      ++ (if m.ReplyTo.Address ≠ "" then
            "Reply-To: " ++ env.addressString m.ReplyTo ++ "\r\n" else "") := by
  have hs : "Subject: =?UTF-8?B?" = "Subject: " ++ "=?UTF-8?B?" := by decide
  unfold MailContent.fixedBuf
  rw [hs]
  apply String.ext
  split <;> split <;> simp

/-! ### Attachments that are absent -/

theorem demoEnv_rangeOk : demoEnv.RangeOk :=
  ⟨fun l => List.Perm.refl l, fun l => List.Perm.refl l⟩

/-- The attachment loop stops at the first visited entry whose file is absent or cannot
be read: either every visited file exists and is readable and the loop succeeds, or the
visit is `pre ++ e1 :: post` with every file of `pre` readable and the loop returns the
missing-attachment error when `e1` is absent and else the read error of `e1`. -/
theorem writeAttachments_first_failure (env : Env) (l : List StrEntry) (buf : String) :
    ((∃ b, writeAttachments env l buf = .ok b) ∧
      ∀ x ∈ l, env.FileExists x.2 = true ∧ ∃ d, env.ReadFile x.2 = .ok d) ∨
    ∃ pre e1 post err, l = pre ++ e1 :: post ∧
      (∀ x ∈ pre, env.FileExists x.2 = true ∧ ∃ d, env.ReadFile x.2 = .ok d) ∧
      writeAttachments env l buf = .error err ∧
      ((env.FileExists e1.2 = false ∧ err = MissingAttachment) ∨
        (env.FileExists e1.2 = true ∧ env.ReadFile e1.2 = .error err)) := by
  induction l generalizing buf with
  | nil => exact Or.inl ⟨⟨buf, rfl⟩, fun x hx => by cases hx⟩
  | cons a rest ih =>
    obtain ⟨filename, abspath⟩ := a
    by_cases hex : env.FileExists abspath = true
    · cases hrd : env.ReadFile abspath with
      | error err =>
        refine Or.inr ⟨[], ⟨filename, abspath⟩, rest, err, rfl, (fun x hx => by cases hx), ?_,
          Or.inr ⟨hex, hrd⟩⟩
        simp [writeAttachments, hex, hrd]
      | ok data =>
        rw [writeAttachments_cons_ok env filename abspath rest buf data hex hrd]
        rcases ih (buf ++ attachmentPart env filename data) with ⟨hok, hall⟩ |
          ⟨pre, e1, post, err, hl, hpre, herr, hcase⟩
        · refine Or.inl ⟨hok, ?_⟩
          intro x hx
          rcases List.mem_cons.mp hx with h | h
          · rw [h]; exact ⟨hex, data, hrd⟩
          · exact hall x h
        · refine Or.inr ⟨⟨filename, abspath⟩ :: pre, e1, post, err, by rw [hl]; rfl, ?_,
            herr, hcase⟩
          intro x hx
          rcases List.mem_cons.mp hx with h | h
          · rw [h]; exact ⟨hex, data, hrd⟩
          · exact hpre x h
    · have hex2 : env.FileExists abspath = false := by simpa using hex
      refine Or.inr ⟨[], ⟨filename, abspath⟩, rest, MissingAttachment, rfl,
        (fun x hx => by cases hx), ?_, Or.inl ⟨hex2, rfl⟩⟩
      simp [writeAttachments, hex]

/-- When the absent entry `e` is visited after entries that are absent or readable, the
attachment loop returns the missing-attachment error. -/
theorem writeAttachments_absent_first (env : Env) (pre post : List StrEntry) (e : StrEntry)
    (buf : String) (hx : env.FileExists e.2 = false)
    (hpre : ∀ x ∈ pre, env.FileExists x.2 = true → ∃ d, env.ReadFile x.2 = .ok d) :
    writeAttachments env (pre ++ e :: post) buf = .error MissingAttachment := by
  induction pre generalizing buf with
  | nil =>
    obtain ⟨filename, abspath⟩ := e
    simp only [List.nil_append, writeAttachments]
    simp only [] at hx
    simp [hx]
  | cons a rest ih =>
    obtain ⟨filename, abspath⟩ := a
    by_cases hex : env.FileExists abspath = true
    · obtain ⟨d, hd⟩ := hpre ⟨filename, abspath⟩ (List.mem_cons_self _ _) hex
      rw [List.cons_append, writeAttachments_cons_ok env filename abspath _ buf d hex hd]
      exact ih _ (fun x hm => hpre x (List.mem_cons_of_mem _ hm))
    · simp [writeAttachments, hex]

/-- C3 (as stated, refuted): with `locked.txt` visited before the absent `report.pdf`, the
error of `SendMail` is the read error of `locked.txt`, not the missing-attachment error. -/
theorem SendMail_missing_attachment_counterexample :
    lockedMail.From.Address ≠ "" ∧ lockedMail.To ≠ [] ∧
    (⟨"report.pdf", "/data/report.pdf"⟩ : StrEntry) ∈ lockedMail.Attachments.entries ∧
    demoEnv.FileExists "/data/report.pdf" = false ∧
    lockedMail.SendMail demoEnv
      = { err := some (GoError.file "permission denied"), calls := [] } ∧
    (lockedMail.SendMail demoEnv).err ≠ some MissingAttachment := by
  decide

/-- C3 (amended): a message with a sender, a recipient and an attachment `e` whose path
does not exist is never handed to the transport and `SendMail` fails. The visit of the
attachments is `pre ++ e1 :: post` with every file of `pre` readable, and the error is the
missing-attachment error when `e1` is absent, and else the read error of `e1`, which then
exists, cannot be read and is visited before `e`. The error is the missing-attachment error
whenever every existing file visited before `e` can be read, so also when `e` is visited
first and when every attachment that exists can be read. -/
theorem SendMail_missing_attachment (env : Env) (m : MailContent) (hr : env.RangeOk)
    (hf : m.From.Address ≠ "") (ht : m.To ≠ [])
    (e : StrEntry) (he : e ∈ m.Attachments.entries) (hx : env.FileExists e.2 = false) :
    (m.SendMail env).calls = [] ∧
    (∃ pre e1 post, env.attachOrder m.Attachments.entries = pre ++ e1 :: post ∧
      (∀ x ∈ pre, env.FileExists x.2 = true ∧ ∃ d, env.ReadFile x.2 = .ok d) ∧
      ((env.FileExists e1.2 = false ∧ (m.SendMail env).err = some MissingAttachment) ∨
        (env.FileExists e1.2 = true ∧ e ∈ post ∧
          ∃ err, env.ReadFile e1.2 = .error err ∧ (m.SendMail env).err = some err))) ∧
    (∀ pre post, env.attachOrder m.Attachments.entries = pre ++ e :: post →
      (∀ x ∈ pre, env.FileExists x.2 = true → ∃ d, env.ReadFile x.2 = .ok d) →
      (m.SendMail env).err = some MissingAttachment) ∧
    ((∀ e2 ∈ m.Attachments.entries, env.FileExists e2.2 = true →
        ∃ d, env.ReadFile e2.2 = .ok d) →
      (m.SendMail env).err = some MissingAttachment) := by
  have hperm := hr.2 m.Attachments.entries
  have hlen : m.Attachments.entries.length > 0 := List.length_pos_of_mem he
  have hvis : e ∈ env.attachOrder m.Attachments.entries := hperm.mem_iff.mpr he
  have hsend : ∀ err, writeAttachments env (env.attachOrder m.Attachments.entries)
      (m.bodyBuf env (m.fixedBuf env)) = .error err →
      m.SendMail env = { err := some err, calls := [] } := by
    intro err h1
    rw [SendMail_eq env m hf ht]
    simp [MailContent.serialized, MailContent.attachBuf, hlen, h1]
  have hthird : ∀ pre post, env.attachOrder m.Attachments.entries = pre ++ e :: post →
      (∀ x ∈ pre, env.FileExists x.2 = true → ∃ d, env.ReadFile x.2 = .ok d) →
      m.SendMail env = { err := some MissingAttachment, calls := [] } := by
    intro pre post hsplit hpre
    apply hsend
    rw [hsplit]
    exact writeAttachments_absent_first env pre post e _ hx hpre
  rcases writeAttachments_first_failure env (env.attachOrder m.Attachments.entries)
      (m.bodyBuf env (m.fixedBuf env)) with ⟨_, hall⟩ | ⟨pre, e1, post, err, hl, hpre, herr, hcase⟩
  · have := (hall e hvis).1
    rw [hx] at this
    cases this
  · have hs := hsend err herr
    refine ⟨by rw [hs], ⟨pre, e1, post, hl, hpre, ?_⟩, ?_, ?_⟩
    · rcases hcase with ⟨h1, h2⟩ | ⟨h1, h2⟩
      · exact Or.inl ⟨h1, by rw [hs, h2]⟩
      · refine Or.inr ⟨h1, ?_, err, h2, by rw [hs]⟩
        rw [hl] at hvis
        rcases List.mem_append.mp hvis with h | h
        · have := (hpre e h).1
          rw [hx] at this
          cases this
        · rcases List.mem_cons.mp h with h | h
          · rw [h, h1] at hx
            cases hx
          · exact h
    · intro pre2 post2 hsplit hpre2
      rw [hthird pre2 post2 hsplit hpre2]
    · intro hall
      obtain ⟨pre2, post2, hsplit⟩ := List.append_of_mem hvis
      rw [hthird pre2 post2 hsplit
        (fun x hm hxe => hall x (hperm.mem_iff.mp (by rw [hsplit]; simp [hm])) hxe)]

theorem SendMail_missing_attachment_witness :
    demoEnv.RangeOk ∧
    absentFirstMail.From.Address ≠ "" ∧ absentFirstMail.To ≠ [] ∧
    (⟨"report.pdf", "/data/report.pdf"⟩ : StrEntry) ∈ absentFirstMail.Attachments.entries ∧
    demoEnv.FileExists "/data/report.pdf" = false ∧
    demoEnv.attachOrder absentFirstMail.Attachments.entries
      = [] ++ ⟨"report.pdf", "/data/report.pdf"⟩ :: [⟨"locked.txt", "/data/locked.txt"⟩] ∧
    demoEnv.ReadFile "/data/locked.txt" = .error (GoError.file "permission denied") ∧
    (absentFirstMail.SendMail demoEnv).calls = [] ∧
    (absentFirstMail.SendMail demoEnv).err = some MissingAttachment :=
  have h := SendMail_missing_attachment demoEnv absentFirstMail
    demoEnv_rangeOk (by decide) (by decide) ⟨"report.pdf", "/data/report.pdf"⟩
    (by decide) (by decide)
  ⟨demoEnv_rangeOk, by decide, by decide, by decide, by decide, by decide, rfl, h.1,
    h.2.2.1 [] [⟨"locked.txt", "/data/locked.txt"⟩] (by decide)
      (fun x hm => by cases hm)⟩

/-! ### The `Subject:` line -/

/-- The finished buffer has the `Subject:` line of the fixed headers. -/
theorem serialized_subject (env : Env) (m : MailContent) (buf : String)
    (h : m.serialized env = .ok buf) :
    HasLine buf ("Subject: =?UTF-8?B?" ++ base64.EncodeToString (bytesOf m.Subject) ++ "?=") := by
  unfold MailContent.serialized at h
  obtain ⟨t1, h1⟩ := bodyBuf_append env m (m.fixedBuf env)
  obtain ⟨t2, h2⟩ := attachBuf_append env m _ buf h
  obtain ⟨P, R, hfix⟩ : ∃ P R, m.fixedBuf env = (P ++ "\r\n")
      ++ ("Subject: =?UTF-8?B?" ++ base64.EncodeToString (bytesOf m.Subject) ++ "?=")
      ++ "\r\n" ++ R := ⟨_, _, fixedBuf_subject env m⟩
  rw [h1, hfix] at h2
  refine ⟨P ++ "\r\n", R ++ t1 ++ t2, ?_, Or.inr ⟨P, rfl⟩⟩
  rw [h2]
  simp only [String.append_assoc]

/-- C4: when the sender and recipient checks pass, the buffer handed to the transport has
the line `Subject: =?UTF-8?B?<base64 of the subject bytes>?=` (for the subject `Hello`:
`Subject: =?UTF-8?B?SGVsbG8=?=`), and the buffer is handed over unless an attachment is
absent or unreadable. -/
theorem SendMail_subject_line (env : Env) (m : MailContent)
    (hf : m.From.Address ≠ "") (ht : m.To ≠ []) :
    (∀ c ∈ (m.SendMail env).calls,
      HasLine c.msg
        ("Subject: =?UTF-8?B?" ++ base64.EncodeToString (bytesOf m.Subject) ++ "?=")) ∧
    (m.Subject = "Hello" →
      ∀ c ∈ (m.SendMail env).calls, HasLine c.msg "Subject: =?UTF-8?B?SGVsbG8=?=") ∧
    ((m.SendMail env).calls = [] →
      ∃ e ∈ env.attachOrder m.Attachments.entries,
        env.FileExists e.2 = false ∨ ∃ err, env.ReadFile e.2 = .error err) := by
  have key : ∀ c ∈ (m.SendMail env).calls,
      HasLine c.msg
        ("Subject: =?UTF-8?B?" ++ base64.EncodeToString (bytesOf m.Subject) ++ "?=") := by
    intro c hc
    rw [SendMail_eq env m hf ht] at hc
    cases hser : m.serialized env with
    | error err => simp [hser] at hc
    | ok buf =>
      simp only [hser, List.mem_singleton] at hc
      subst hc
      exact serialized_subject env m buf hser
  refine ⟨key, ?_, ?_⟩
  · intro hsub c hc
    have h := key c hc
    rw [hsub] at h
    have he : "Subject: =?UTF-8?B?" ++ base64.EncodeToString (bytesOf "Hello") ++ "?="
        = "Subject: =?UTF-8?B?SGVsbG8=?=" := by decide
    rw [he] at h
    exact h
  · intro hc
    rw [SendMail_eq env m hf ht] at hc
    cases hser : m.serialized env with
    | error err => exact attachBuf_error env m _ err hser
    | ok buf => simp [hser] at hc

theorem SendMail_subject_line_witness :
    helloMail.From.Address ≠ "" ∧ helloMail.To ≠ [] ∧
    (∃ c, (helloMail.SendMail demoEnv).calls = [c]) ∧
    (∀ c ∈ (helloMail.SendMail demoEnv).calls,
      HasLine c.msg "Subject: =?UTF-8?B?SGVsbG8=?=") :=
  ⟨by decide, by decide, ⟨_, rfl⟩,
    (SendMail_subject_line demoEnv helloMail (by decide) (by decide)).2.1 rfl⟩

/-! ### The wrapping of an attachment payload -/

theorem encChar_ne_crlf (v : Nat) :
    base64.encChar v ≠ '\r' ∧ base64.encChar v ≠ '\n' := by
  have h : ∀ n, n < 64 →
      (base64.encodeStd.data.getD n 'A' ≠ '\r' ∧ base64.encodeStd.data.getD n 'A' ≠ '\n') := by
    decide
  exact h (v % 64) (Nat.mod_lt _ (by decide))

theorem Encode_ne_crlf (d : List UInt8) :
    ∀ c ∈ base64.Encode d, c ≠ '\r' ∧ c ≠ '\n' := by
  induction d using base64.Encode.induct with
  | case1 => simp [base64.Encode]
  | case2 a =>
    intro c hc
    simp only [base64.Encode, List.mem_cons, List.mem_singleton] at hc
    rcases hc with h | h | h | h
    · rw [h]; exact encChar_ne_crlf _
    · rw [h]; exact encChar_ne_crlf _
    · rw [h]; decide
    · simp at h
      rw [h]; decide
  | case3 a b =>
    intro c hc
    simp only [base64.Encode, List.mem_cons, List.mem_singleton] at hc
    rcases hc with h | h | h | h
    · rw [h]; exact encChar_ne_crlf _
    · rw [h]; exact encChar_ne_crlf _
    · rw [h]; exact encChar_ne_crlf _
    · simp at h
      rw [h]; decide
  | case4 a b c rest ih =>
    intro x hx
    simp only [base64.Encode, List.mem_cons] at hx
    rcases hx with h | h | h | h | h
    · rw [h]; exact encChar_ne_crlf _
    · rw [h]; exact encChar_ne_crlf _
    · rw [h]; exact encChar_ne_crlf _
    · rw [h]; exact encChar_ne_crlf _
    · exact ih x h

theorem splitCRLF_ne_nil (w : List Char) : splitCRLF w ≠ [] := by
  match w with
  | [] => simp [splitCRLF]
  | [c] => simp [splitCRLF]
  | c :: d :: rest =>
    unfold splitCRLF
    split
    · simp
    · split <;> simp

/-- A character other than CR joins the first piece of what follows it. -/
theorem splitCRLF_cons (c : Char) (w : List Char) (hc : c ≠ '\r') :
    splitCRLF (c :: w) = (c :: (splitCRLF w).headI) :: (splitCRLF w).tail := by
  match w with
  | [] => simp [splitCRLF]
  | d :: rest =>
    have hne := splitCRLF_ne_nil (d :: rest)
    rw [splitCRLF]
    simp only [hc, false_and, if_false]
    cases hsp : splitCRLF (d :: rest) with
    | nil => exact absurd hsp hne
    | cons l ls => simp

theorem splitCRLF_crlf (w : List Char) :
    splitCRLF ('\r' :: '\n' :: w) = [] :: splitCRLF w := by
  simp [splitCRLF]

theorem WrappedLines_cons (c : Char) (k : Nat) (L : List (List Char))
    (h : WrappedLines k L) : WrappedLines (k + 1) ((c :: L.headI) :: L.tail) := by
  match L, h with
  | [l], h =>
    simp only [WrappedLines] at h
    simp only [List.headI, List.tail, WrappedLines, List.length_cons]
    omega
  | l :: l2 :: ls, h =>
    simp only [WrappedLines] at h
    simp only [List.headI, List.tail, WrappedLines, List.length_cons]
    exact ⟨by omega, h.2⟩

/-- The pieces of the text written by the wrapping loop from index `i` on. -/
theorem wrapped_lines (b : List Char) (i : Nat)
    (hb : ∀ c ∈ b, c ≠ '\r' ∧ c ≠ '\n') :
    WrappedLines (76 - i % 76) (splitCRLF (wrapped b i)) := by
  induction b generalizing i with
  | nil =>
    simp only [wrapped, splitCRLF, WrappedLines, List.length_nil]
    omega
  | cons c rest ih =>
    have hc := (hb c (List.mem_cons_self _ _)).1
    have hrest : ∀ x ∈ rest, x ≠ '\r' ∧ x ≠ '\n' :=
      fun x hx => hb x (List.mem_cons_of_mem _ hx)
    have ih1 := ih (i + 1) hrest
    simp only [wrapped]
    by_cases h : (i + 1) % 76 = 0
    · simp only [h, if_true]
      rw [splitCRLF_cons c _ hc, splitCRLF_crlf]
      simp only [List.headI, List.tail]
      have hk : 76 - i % 76 = 1 := by omega
      rw [h] at ih1
      cases hsp : splitCRLF (wrapped rest (i + 1)) with
      | nil => exact absurd hsp (splitCRLF_ne_nil _)
      | cons l ls =>
        rw [hsp] at ih1
        simp only [WrappedLines, List.length_singleton, hk, true_and]
        exact ih1
    · simp only [h, if_false]
      rw [splitCRLF_cons c _ hc]
      have hk : 76 - i % 76 = (76 - (i + 1) % 76) + 1 := by omega
      rw [hk]
      exact WrappedLines_cons c _ _ ih1

/-- In the pieces of a wrapped payload every piece before the last has exactly 76
characters and no piece has more. -/
theorem WrappedLines_bound (k : Nat) (L : List (List Char)) (hk : k ≤ 76)
    (h : WrappedLines k L) :
    (∀ l ∈ L.dropLast, l.length = 76 ∨ l.length = k) ∧ (∀ l ∈ L, l.length ≤ 76) := by
  induction L generalizing k with
  | nil => simp
  | cons l ls ih =>
    match ls, h, ih with
    | [], h, _ =>
      simp only [WrappedLines] at h
      simp only [List.dropLast_single, List.not_mem_nil, false_implies, implies_true,
        List.mem_singleton, forall_eq, true_and]
      omega
    | l2 :: ls2, h, ih =>
      simp only [WrappedLines] at h
      obtain ⟨h1, h2⟩ := ih 76 (le_refl _) h.2
      constructor
      · intro x hx
        rw [List.dropLast_cons₂, List.mem_cons] at hx
        rcases hx with hx | hx
        · right; rw [hx]; exact h.1
        · rcases h1 x hx with h3 | h3
          · exact Or.inl h3
          · exact Or.inl h3
      · intro x hx
        rcases List.mem_cons.mp hx with hx | hx
        · rw [hx]; omega
        · exact h2 x hx

/-- C5: for a message with one attachment whose file holds `data`, the transport gets a
buffer in which the payload written by the wrapping loop stands between the blank line of
the part headers and the final delimiter; split at CRLF, every piece of the payload before
the last has exactly 76 characters and no piece has more than 76. -/
theorem SendMail_payload_wrapped (env : Env) (m : MailContent) (hr : env.RangeOk)
    (hf : m.From.Address ≠ "") (ht : m.To ≠ [])
    (filename abspath : String) (data : List UInt8)
    (hone : m.Attachments.entries = [⟨filename, abspath⟩])
    (hex : env.FileExists abspath = true) (hrd : env.ReadFile abspath = .ok data) :
    ∃ c pre, (m.SendMail env).calls = [c] ∧
      c.msg = pre ++ "?=\"\r\n\r\n" ++ writeWrapped (base64.Encode data) 0 ""
        ++ ("\r\n--" ++ boundary ++ "--") ∧
      (∀ l ∈ (splitCRLF (writeWrapped (base64.Encode data) 0 "").data).dropLast,
        l.length = 76) ∧
      (∀ l ∈ splitCRLF (writeWrapped (base64.Encode data) 0 "").data, l.length ≤ 76) := by
  have hvisit : env.attachOrder m.Attachments.entries = [⟨filename, abspath⟩] := by
    have hp := hr.2 m.Attachments.entries
    rw [hone] at hp
    rw [hone]
    exact List.perm_singleton.mp hp
  have hpay : writeWrapped (base64.Encode data) 0 ""
      = String.mk (wrapped (base64.Encode data) 0) := by
    rw [writeWrapped_eq]
    apply String.ext
    simp
  have hlines := wrapped_lines (base64.Encode data) 0 (Encode_ne_crlf data)
  have hb := WrappedLines_bound _ _ (by omega) hlines
  have hser : m.serialized env
      = .ok (m.bodyBuf env (m.fixedBuf env) ++ attachmentPart env filename data ++ "--") := by
    unfold MailContent.serialized MailContent.attachBuf
    rw [hvisit, writeAttachments_cons_ok env filename abspath [] _ data hex hrd]
    simp [hone, writeAttachments]
  refine ⟨m.transportCall (m.bodyBuf env (m.fixedBuf env)
      ++ attachmentPart env filename data ++ "--"), ?_, ?_, ?_, ?_, ?_⟩
  · exact m.bodyBuf env (m.fixedBuf env)
      ++ (("\r\n\r\n--" ++ boundary ++ "\r\n")
        ++ (if env.TypeByExtension (filepath.Ext filename) ≠ "" then
              "Content-Type: " ++ env.TypeByExtension (filepath.Ext filename) ++ "\r\n"
            else "Content-Type: application/octet-stream\r\n")
        ++ "Content-Transfer-Encoding: base64\r\n"
        ++ "Content-Disposition: attachment; filename=\"=?UTF-8?B?"
        ++ base64.EncodeToString (bytesOf filename))
  · rw [SendMail_eq env m hf ht, hser]
  · rw [hpay]
    simp only [MailContent.transportCall, attachmentPart, String.append_assoc]
  · intro l hl
    rw [hpay] at hl
    rcases hb.1 l hl with h | h
    · exact h
    · simpa using h
  · intro l hl
    rw [hpay] at hl
    exact hb.2 l hl

theorem SendMail_payload_wrapped_witness :
    demoEnv.RangeOk ∧ lineMail.From.Address ≠ "" ∧ lineMail.To ≠ [] ∧
    lineMail.Attachments.entries = [⟨"line.bin", "/data/line.bin"⟩] ∧
    demoEnv.FileExists "/data/line.bin" = true ∧
    demoEnv.ReadFile "/data/line.bin" = .ok (List.replicate 57 65) ∧
    ∃ c pre, (lineMail.SendMail demoEnv).calls = [c] ∧
      c.msg = pre ++ "?=\"\r\n\r\n" ++ writeWrapped (base64.Encode (List.replicate 57 65)) 0 ""
        ++ ("\r\n--" ++ boundary ++ "--") ∧
      (∀ l ∈ (splitCRLF (writeWrapped (base64.Encode (List.replicate 57 65)) 0 "").data).dropLast,
        l.length = 76) ∧
      (∀ l ∈ splitCRLF (writeWrapped (base64.Encode (List.replicate 57 65)) 0 "").data,
        l.length ≤ 76) :=
  ⟨demoEnv_rangeOk, by decide, by decide, by decide, by decide, rfl,
    SendMail_payload_wrapped demoEnv lineMail demoEnv_rangeOk (by decide) (by decide)
      "line.bin" "/data/line.bin" (List.replicate 57 65) (by decide) (by decide) rfl⟩

/-! ### The call of the transport -/

theorem foldl_snoc_map {α β : Type} (f : α → β) (l : List α) (init : List β) :
    l.foldl (fun acc a => acc ++ [f a]) init = init ++ l.map f := by
  induction l generalizing init with
  | nil => simp
  | cons a rest ih => simp [ih]

theorem getToAddressList_eq (m : MailContent) :
    m.getToAddressList
      = m.To.map (fun a => a.Address) ++ m.Cc.map (fun a => a.Address)
        ++ m.Bcc.map (fun a => a.Address) := by
  simp [MailContent.getToAddressList, foldl_snoc_map]

/-- Every run of `SendMail` either makes no call of the transport or exactly one, built by
`transportCall`. -/
theorem SendMail_calls (env : Env) (m : MailContent) (c : SmtpCall)
    (hc : c ∈ (m.SendMail env).calls) :
    ∃ buf, (m.SendMail env).calls = [c] ∧ c = m.transportCall buf := by
  by_cases hf : m.From.Address = ""
  · rw [SendMail_missing_sender_aux env m hf] at hc
    cases hc
  · by_cases ht : m.To = []
    · rw [SendMail_missing_recipient_aux env m hf ht] at hc
      cases hc
    · rw [SendMail_eq env m hf ht] at hc ⊢
      cases hser : m.serialized env with
      | error err => simp [hser] at hc
      | ok buf =>
        simp only [hser, List.mem_singleton] at hc
        exact ⟨buf, by rw [hc], hc⟩

/-- C6: when `SendMail` reaches the transport it calls it exactly once, with the address
`host:port` (port in decimal) of the profile, the sender address of the message and the
addresses of `To`, then `Cc`, then `Bcc`, all of them and in that order. -/
theorem SendMail_transport_call (env : Env) (m : MailContent) (c : SmtpCall)
    (hc : c ∈ (m.SendMail env).calls) :
    (m.SendMail env).calls = [c] ∧
    c.addr = m.ServerInfo.SmtpHost ++ ":" ++ String.mk (Nat.toDigits 10 m.ServerInfo.SmtpPort) ∧
    c.sender = m.From.Address ∧
    c.recipients = m.To.map (fun a => a.Address) ++ m.Cc.map (fun a => a.Address)
      ++ m.Bcc.map (fun a => a.Address) ∧
    c.recipients.length = m.To.length + m.Cc.length + m.Bcc.length := by
  obtain ⟨buf, h1, h2⟩ := SendMail_calls env m c hc
  have hrec : c.recipients = m.To.map (fun a => a.Address) ++ m.Cc.map (fun a => a.Address)
      ++ m.Bcc.map (fun a => a.Address) := by
    rw [h2]
    exact getToAddressList_eq m
  refine ⟨h1, ?_, ?_, hrec, ?_⟩
  · rw [h2]; rfl
  · rw [h2]; rfl
  · rw [hrec]
    simp [Nat.add_assoc]

theorem SendMail_transport_call_witness :
    demoCall ∈ (demoMail.SendMail demoEnv).calls ∧
    (demoMail.SendMail demoEnv).calls = [demoCall] ∧
    demoCall.addr = "smtp.example.com:587" ∧
    demoCall.sender = "a@x.com" ∧
    demoCall.recipients = ["b@y.com"] ∧
    demoCall.recipients.length = 1 + 0 + 0 :=
  ⟨by decide, SendMail_transport_call demoEnv demoMail demoCall (by decide)⟩

/-! ### The authentication strategy -/

/-- C7: the strategy `SendMail` hands to the transport is CRAM-MD5 with the user name and
the secret when the secret of the profile is not empty, whatever the password is, and
plain authentication with identity, user name, password and host otherwise. -/
theorem SendMail_auth (env : Env) (m : MailContent) (c : SmtpCall)
    (hc : c ∈ (m.SendMail env).calls) :
    (m.ServerInfo.SmtpSecret ≠ "" →
      c.auth = Auth.CRAMMD5Auth m.ServerInfo.SmtpUsername m.ServerInfo.SmtpSecret) ∧
    (m.ServerInfo.SmtpSecret = "" →
      c.auth = Auth.PlainAuth m.ServerInfo.Identity m.ServerInfo.SmtpUsername
        m.ServerInfo.SmtpPassword m.ServerInfo.SmtpHost) := by
  obtain ⟨buf, _, h2⟩ := SendMail_calls env m c hc
  rw [h2]
  constructor
  · intro h
    simp [MailContent.transportCall, h]
  · intro h
    simp [MailContent.transportCall, h]

theorem SendMail_auth_witness :
    demoCall ∈ (demoMail.SendMail demoEnv).calls ∧
    demoMail.ServerInfo.SmtpSecret = "" ∧
    demoCall.auth = Auth.PlainAuth "" "u" "p" "smtp.example.com" :=
  ⟨by decide, by decide, (SendMail_auth demoEnv demoMail demoCall (by decide)).2 (by decide)⟩

/-! ### Custom headers -/

/-- C8: `AddHeader` fails with the duplicate-header error exactly when the key is present,
and then the message is unchanged (a second call with the same key always fails and keeps
the value of the first); when the key is absent it succeeds and the header map is the old
one with the key mapped to the value. -/
theorem AddHeader_spec (m : MailContent) (key value value2 : String) :
    ((m.AddHeader key value).2 = some DuplicateHeader ↔ key ∈ m.Headers) ∧
    ((m.AddHeader key value).2 = none ↔ key ∉ m.Headers) ∧
    (key ∈ m.Headers → (m.AddHeader key value).1 = m) ∧
    (key ∉ m.Headers →
      (m.AddHeader key value).1 = { m with Headers := m.Headers.insert key value } ∧
      (m.AddHeader key value).1.Headers.entries = ⟨key, value⟩ :: m.Headers.entries ∧
      (m.AddHeader key value).1.Headers.lookup key = some value ∧
      ∀ k, k ≠ key → (m.AddHeader key value).1.Headers.lookup k = m.Headers.lookup k) ∧
    ((m.AddHeader key value).1.AddHeader key value2
      = ((m.AddHeader key value).1, some DuplicateHeader)) := by
  by_cases h : key ∈ m.Headers
  · have hs : (m.Headers.lookup key).isSome = true := AList.lookup_isSome.mpr h
    have he : m.AddHeader key value = (m, some DuplicateHeader) := by
      simp [MailContent.AddHeader, hs]
    have he2 : m.AddHeader key value2 = (m, some DuplicateHeader) := by
      simp [MailContent.AddHeader, hs]
    rw [he]
    refine ⟨by simp [h], by simp [h], fun _ => rfl, fun h2 => absurd h h2, ?_⟩
    exact he2
  · have hs : ¬ ((m.Headers.lookup key).isSome = true) := fun hc => h (AList.lookup_isSome.mp hc)
    have he : m.AddHeader key value
        = ({ m with Headers := m.Headers.insert key value }, none) := by
      simp [MailContent.AddHeader, hs]
    rw [he]
    refine ⟨by simp [h, DuplicateHeader], by simp [h], fun h2 => absurd h2 h, fun _ => ?_, ?_⟩
    · exact ⟨rfl, AList.insert_entries_of_neg h, AList.lookup_insert _,
        fun k hk => AList.lookup_insert_ne hk⟩
    · simp [MailContent.AddHeader]

theorem AddHeader_spec_witness :
    ("X-Tag" ∉ demoMail.Headers) ∧
    demoMail.AddHeader "X-Tag" "one" = (demoMail.SetHeader "X-Tag" "one", none) ∧
    (demoMail.AddHeader "X-Tag" "one").1.AddHeader "X-Tag" "two"
      = ((demoMail.AddHeader "X-Tag" "one").1, some DuplicateHeader) ∧
    (demoMail.AddHeader "X-Tag" "one").1.Headers.lookup "X-Tag" = some "one" :=
  have h := AddHeader_spec demoMail "X-Tag" "one" "two"
  ⟨by decide, rfl, h.2.2.2.2, (h.2.2.2.1 (by decide)).2.2.1⟩

/-- The body phase writes the header lines of the visited entries right after the buffer
it starts from. -/
theorem bodyBuf_headers (env : Env) (m : MailContent) (buf : String)
    (hne : m.Headers.entries ≠ []) :
    ∃ t, m.bodyBuf env buf
      = buf ++ concat ((env.headerOrder m.Headers.entries).map headerLine) ++ t := by
  have hlen : m.Headers.entries.length > 0 := List.length_pos.mpr hne
  unfold MailContent.bodyBuf
  simp only [hlen, if_true, writeHeaders_eq]
  split <;> exact ⟨_, by simp only [String.append_assoc]; rfl⟩

/-- Two texts cut at a colon that neither has before the cut are cut at the same place. -/
theorem append_colon_inj (a b x y : List Char) (ha : ':' ∉ a) (hb : ':' ∉ b)
    (h : a ++ ':' :: x = b ++ ':' :: y) : a = b ∧ x = y := by
  induction a generalizing b with
  | nil =>
    cases b with
    | nil => simpa using h
    | cons d b2 =>
      simp only [List.nil_append, List.cons_append, List.cons.injEq] at h
      exact absurd (List.mem_cons.mpr (Or.inl h.1)) hb
  | cons c a2 ih =>
    cases b with
    | nil =>
      simp only [List.nil_append, List.cons_append, List.cons.injEq] at h
      exact absurd (List.mem_cons.mpr (Or.inl h.1.symm)) ha
    | cons d b2 =>
      simp only [List.cons_append, List.cons.injEq] at h
      obtain ⟨h1, h2⟩ := ih b2 (fun hc => ha (List.mem_cons_of_mem _ hc))
        (fun hc => hb (List.mem_cons_of_mem _ hc)) h.2
      exact ⟨by rw [h.1, h1], h2⟩

/-- Header lines of entries whose keys have no colon are equal only for equal entries. -/
theorem headerLine_inj (e1 e2 : StrEntry) (h1 : ':' ∉ e1.1.data) (h2 : ':' ∉ e2.1.data)
    (h : headerLine e1 = headerLine e2) : e1 = e2 := by
  obtain ⟨k1, w1⟩ := e1
  obtain ⟨k2, w2⟩ := e2
  have hd := congrArg String.data h
  simp only [headerLine, String.data_append] at hd
  simp only [List.append_assoc, List.cons_append, List.nil_append] at hd
  obtain ⟨hk, hv⟩ := append_colon_inj _ _ _ _ h1 h2 hd
  simp only [List.cons.injEq, true_and] at hv
  have hv2 := List.append_cancel_right hv
  have ek : k1 = k2 := String.ext hk
  have ev : w1 = w2 := String.ext hv2
  subst ek
  subst ev
  rfl

/-- C9: after `SetHeader k v1` and `SetHeader k v2` the header map has one entry for `k`,
with the value `v2`, and the other keys are as before; the buffer handed to the transport
carries, right after the fixed headers, one line per entry of that map, among them the line
of `(k, v2)` and not that of `(k, v1)` when `v1` differs from `v2` (also as a text, when no
key holds a colon); `SetHeader` has no failing case, also after `AddHeader` of the key. -/
theorem SetHeader_twice (env : Env) (m : MailContent) (k v1 v2 : String)
    (hr : env.RangeOk) (hf : m.From.Address ≠ "") (ht : m.To ≠ []) :
    ((m.SetHeader k v1).SetHeader k v2).Headers.lookup k = some v2 ∧
    ((m.SetHeader k v1).SetHeader k v2).Headers.entries.filter (fun e => e.1 = k)
      = [⟨k, v2⟩] ∧
    (∀ k2, k2 ≠ k →
      ((m.SetHeader k v1).SetHeader k v2).Headers.lookup k2 = m.Headers.lookup k2) ∧
    (m.SetHeader k v1).SetHeader k v2 = { m with Headers := m.Headers.insert k v2 } ∧
    ((m.AddHeader k v1).1.SetHeader k v2).Headers.lookup k = some v2 ∧
    (∀ c ∈ (((m.SetHeader k v1).SetHeader k v2).SendMail env).calls, ∃ post,
      c.msg = ((m.SetHeader k v1).SetHeader k v2).fixedBuf env
        ++ concat ((env.headerOrder ((m.SetHeader k v1).SetHeader k v2).Headers.entries).map
            headerLine)
        ++ post) ∧
    (⟨k, v2⟩ : StrEntry) ∈ env.headerOrder ((m.SetHeader k v1).SetHeader k v2).Headers.entries ∧
    (∀ e ∈ env.headerOrder ((m.SetHeader k v1).SetHeader k v2).Headers.entries,
      e.1 = k → e = ⟨k, v2⟩) ∧
    (v1 ≠ v2 →
      (⟨k, v1⟩ : StrEntry)
        ∉ env.headerOrder ((m.SetHeader k v1).SetHeader k v2).Headers.entries) ∧
    (v1 ≠ v2 → ':' ∉ k.data → (∀ e ∈ m.Headers.entries, ':' ∉ e.1.data) →
      headerLine ⟨k, v1⟩
        ∉ (env.headerOrder ((m.SetHeader k v1).SetHeader k v2).Headers.entries).map
            headerLine) ∧
    ((((m.SetHeader k v1).SetHeader k v2).SendMail env).calls = [] →
      ∃ e ∈ env.attachOrder m.Attachments.entries,
        env.FileExists e.2 = false ∨ ∃ err, env.ReadFile e.2 = .error err) := by
  have hm2 : (m.SetHeader k v1).SetHeader k v2 = { m with Headers := m.Headers.insert k v2 } := by
    simp [MailContent.SetHeader, AList.insert_insert]
  rw [hm2]
  have hent : (m.Headers.insert k v2).entries = ⟨k, v2⟩ :: List.kerase k m.Headers.entries :=
    AList.insert_entries
  have hperm := hr.1 (m.Headers.insert k v2).entries
  have hnd : (m.Headers.insert k v2).entries.NodupKeys := (m.Headers.insert k v2).nodupKeys
  have hin : (⟨k, v2⟩ : StrEntry) ∈ (m.Headers.insert k v2).entries := by
    rw [hent]; exact List.mem_cons_self _ _
  have honly : ∀ e ∈ (m.Headers.insert k v2).entries, e.1 = k → e = ⟨k, v2⟩ := by
    intro e he hk
    exact hnd.eq_of_fst_eq he hin hk
  have hnot : v1 ≠ v2 → (⟨k, v1⟩ : StrEntry) ∉ (m.Headers.insert k v2).entries := by
    intro hv he
    have := honly _ he rfl
    simp only [Sigma.mk.inj_iff, heq_eq_eq, true_and] at this
    exact hv this
  have hne : (m.Headers.insert k v2).entries ≠ [] := by rw [hent]; simp
  refine ⟨AList.lookup_insert _, ?_, fun k2 hk2 => AList.lookup_insert_ne hk2, rfl, ?_, ?_,
    hperm.mem_iff.mpr hin, fun e he hk => honly e (hperm.mem_iff.mp he) hk,
    fun hv he => hnot hv (hperm.mem_iff.mp he), ?_, ?_⟩
  · rw [hent]
    have hk : ∀ e ∈ List.kerase k m.Headers.entries, ¬ (e.1 = k) := by
      intro e he hek
      have h1 := List.mem_keys_of_mem he
      rw [hek] at h1
      exact List.not_mem_keys_kerase k m.Headers.nodupKeys h1
    simp only [List.filter_cons, decide_True, if_true, List.cons.injEq, true_and]
    rw [List.filter_eq_nil_iff]
    intro e he
    simpa using hk e he
  · simp [MailContent.SetHeader]
  · intro c hc
    have hf2 : ({ m with Headers := m.Headers.insert k v2 } : MailContent).From.Address ≠ "" := hf
    have ht2 : ({ m with Headers := m.Headers.insert k v2 } : MailContent).To ≠ [] := ht
    rw [SendMail_eq env _ hf2 ht2] at hc
    cases hser : MailContent.serialized env { m with Headers := m.Headers.insert k v2 } with
    | error err => simp [hser] at hc
    | ok buf =>
      simp only [hser, List.mem_singleton] at hc
      subst hc
      unfold MailContent.serialized at hser
      obtain ⟨t1, h1⟩ := bodyBuf_headers env { m with Headers := m.Headers.insert k v2 }
        (MailContent.fixedBuf env { m with Headers := m.Headers.insert k v2 }) hne
      obtain ⟨t2, h2⟩ := attachBuf_append env _ _ buf hser
      rw [h1] at h2
      exact ⟨t1 ++ t2, by
        simp only [MailContent.transportCall]
        rw [h2, String.append_assoc]⟩
  · intro hv hk hkeys he
    rw [List.mem_map] at he
    obtain ⟨e, hem, hline⟩ := he
    have hem2 := hperm.mem_iff.mp hem
    have hcolon : ':' ∉ e.1.data := by
      rw [hent] at hem2
      rcases List.mem_cons.mp hem2 with h | h
      · rw [h]; exact hk
      · exact hkeys e ((List.kerase_sublist k m.Headers.entries).subset h)
    have := headerLine_inj e ⟨k, v1⟩ hcolon hk hline
    rw [this] at hem2
    exact hnot hv hem2
  · intro hc
    have hf2 : ({ m with Headers := m.Headers.insert k v2 } : MailContent).From.Address ≠ "" := hf
    have ht2 : ({ m with Headers := m.Headers.insert k v2 } : MailContent).To ≠ [] := ht
    rw [SendMail_eq env _ hf2 ht2] at hc
    cases hser : MailContent.serialized env { m with Headers := m.Headers.insert k v2 } with
    | error err => exact attachBuf_error env _ _ err hser
    | ok buf => simp [hser] at hc

theorem SetHeader_twice_witness :
    demoEnv.RangeOk ∧ demoMail.From.Address ≠ "" ∧ demoMail.To ≠ [] ∧
    ((demoMail.SetHeader "X-Tag" "one").SetHeader "X-Tag" "two").Headers.lookup "X-Tag"
      = some "two" ∧
    ((demoMail.SetHeader "X-Tag" "one").SetHeader "X-Tag" "two").Headers.entries
      = [⟨"X-Tag", "two"⟩] ∧
    (⟨"X-Tag", "one"⟩ : StrEntry)
      ∉ demoEnv.headerOrder
          ((demoMail.SetHeader "X-Tag" "one").SetHeader "X-Tag" "two").Headers.entries ∧
    ((((demoMail.SetHeader "X-Tag" "one").SetHeader "X-Tag" "two").SendMail demoEnv).calls.map
      (fun c => c.msg))
      = ["From: <a@x.com>\r\nDate: Mon, 02 Jan 2006 15:04:05 -0700\r\nTo: <b@y.com>\r\n"
          ++ "Subject: =?UTF-8?B?SGk=?=\r\nX-Tag: two\r\n"
          ++ "Content-Type: text/plain; charset=utf-8\r\n\r\nTest\r\n"] :=
  have h := SetHeader_twice demoEnv demoMail "X-Tag" "one" "two" demoEnv_rangeOk
    (by decide) (by decide)
  ⟨demoEnv_rangeOk, by decide, by decide, h.1, by decide,
    h.2.2.2.2.2.2.2.2.1 (by decide), by decide⟩

/-! ### Address setters -/

/-- C10: when the address parser fails on the input, each of `SetFrom`, `AddTo`, `AddCc`,
`AddBcc` and `SetReplyTo` returns the error of the parser and leaves the message as it
was. -/
theorem addMailAddress_parse_error (env : Env) (m : MailContent) (s : String)
    (err : GoError) (h : env.ParseAddressList s = .error err) :
    m.SetFrom env s = some (m, some err) ∧
    m.AddTo env s = some (m, some err) ∧
    m.AddCc env s = some (m, some err) ∧
    m.AddBcc env s = some (m, some err) ∧
    m.SetReplyTo env s = some (m, some err) := by
  simp [MailContent.SetFrom, MailContent.AddTo, MailContent.AddCc, MailContent.AddBcc,
    MailContent.SetReplyTo, MailContent.addMailAddress, h]

theorem addMailAddress_parse_error_witness :
    demoEnv.ParseAddressList "not an address" = .error (GoError.parse "mail: missing @ in address") ∧
    demoMail.SetFrom demoEnv "not an address"
      = some (demoMail, some (GoError.parse "mail: missing @ in address")) ∧
    demoMail.AddTo demoEnv "not an address"
      = some (demoMail, some (GoError.parse "mail: missing @ in address")) ∧
    demoMail.AddCc demoEnv "not an address"
      = some (demoMail, some (GoError.parse "mail: missing @ in address")) ∧
    demoMail.AddBcc demoEnv "not an address"
      = some (demoMail, some (GoError.parse "mail: missing @ in address")) ∧
    demoMail.SetReplyTo demoEnv "not an address"
      = some (demoMail, some (GoError.parse "mail: missing @ in address")) :=
  ⟨rfl, addMailAddress_parse_error demoEnv demoMail "not an address"
    (GoError.parse "mail: missing @ in address") rfl⟩

/-! ### Address setters on parsed input -/

/-- C11: when the input parses to a list with first entry `e`, `SetFrom` succeeds and sets
`From` to `e`, and `SetReplyTo` succeeds and sets `ReplyTo` to `e`, whatever follows `e` in
the list; nothing else in the message changes (on a new message `SetFrom` leaves `ReplyTo`
empty, and `SetReplyTo` leaves `From` as it is). -/
theorem SetFrom_SetReplyTo_first (env : Env) (m : MailContent) (s : String) (e : Address)
    (rest : List Address) (h : env.ParseAddressList s = .ok (e :: rest))
    (srv : SmtpServer) (subject body : String) :
    m.SetFrom env s = some ({ m with From := e }, none) ∧
    m.SetReplyTo env s = some ({ m with ReplyTo := e }, none) ∧
    (∀ m2, (srv.NewMessage subject body).SetFrom env s = some (m2, none) →
      m2.From = e ∧ m2.ReplyTo = { Name := "", Address := "" }) ∧
    (∀ m2, m.SetReplyTo env s = some (m2, none) → m2.ReplyTo = e ∧ m2.From = m.From) := by
  have h1 : m.SetFrom env s = some ({ m with From := e }, none) := by
    simp [MailContent.SetFrom, MailContent.addMailAddress, h]
  have h2 : m.SetReplyTo env s = some ({ m with ReplyTo := e }, none) := by
    simp [MailContent.SetReplyTo, MailContent.addMailAddress, h]
  have h3 : (srv.NewMessage subject body).SetFrom env s
      = some ({ srv.NewMessage subject body with From := e }, none) := by
    simp [MailContent.SetFrom, MailContent.addMailAddress, h]
  refine ⟨h1, h2, ?_, ?_⟩
  · intro m2 hm
    rw [h3] at hm
    simp only [Option.some.injEq, Prod.mk.injEq, and_true] at hm
    rw [← hm]
    exact ⟨rfl, rfl⟩
  · intro m2 hm
    rw [h2] at hm
    simp only [Option.some.injEq, Prod.mk.injEq, and_true] at hm
    rw [← hm]
    exact ⟨rfl, rfl⟩

theorem SetFrom_SetReplyTo_first_witness :
    demoEnv.ParseAddressList "a@x.com,b@y.com"
      = .ok [⟨"", "a@x.com"⟩, ⟨"", "b@y.com"⟩] ∧
    (demoServer.NewMessage "Hi" "Test").SetFrom demoEnv "a@x.com,b@y.com"
      = some ({ demoServer.NewMessage "Hi" "Test" with From := ⟨"", "a@x.com"⟩ }, none) ∧
    (demoServer.NewMessage "Hi" "Test").SetReplyTo demoEnv "a@x.com,b@y.com"
      = some ({ demoServer.NewMessage "Hi" "Test" with ReplyTo := ⟨"", "a@x.com"⟩ }, none) :=
  have h := SetFrom_SetReplyTo_first demoEnv (demoServer.NewMessage "Hi" "Test")
    "a@x.com,b@y.com" ⟨"", "a@x.com"⟩ [⟨"", "b@y.com"⟩] rfl demoServer "Hi" "Test"
  ⟨rfl, h.1, h.2.1⟩

/-- C12: when the input parses to the list `es`, `AddTo` (`AddCc`, `AddBcc`) succeeds and
the `To` (`Cc`, `Bcc`) list afterwards is the list before followed by `es`, in the order of
the parse and with nothing removed; nothing else in the message changes. -/
theorem AddTo_AddCc_AddBcc_append (env : Env) (m : MailContent) (s : String)
    (es : List Address) (h : env.ParseAddressList s = .ok es) :
    m.AddTo env s = some ({ m with To := m.To ++ es }, none) ∧
    m.AddCc env s = some ({ m with Cc := m.Cc ++ es }, none) ∧
    m.AddBcc env s = some ({ m with Bcc := m.Bcc ++ es }, none) := by
  have hfold : ∀ init : List Address,
      es.foldl (fun acc a => acc ++ [a]) init = init ++ es := by
    intro init
    have := foldl_snoc_map (fun a : Address => a) es init
    simpa using this
  simp [MailContent.AddTo, MailContent.AddCc, MailContent.AddBcc,
    MailContent.addMailAddress, h, hfold]

theorem AddTo_AddCc_AddBcc_append_witness :
    demoEnv.ParseAddressList "c@z.com,b@y.com"
      = .ok [⟨"", "c@z.com"⟩, ⟨"", "b@y.com"⟩] ∧
    demoMail.AddTo demoEnv "c@z.com,b@y.com"
      = some ({ demoMail with
          To := [⟨"", "b@y.com"⟩, ⟨"", "c@z.com"⟩, ⟨"", "b@y.com"⟩] }, none) ∧
    demoMail.AddCc demoEnv "c@z.com,b@y.com"
      = some ({ demoMail with Cc := [⟨"", "c@z.com"⟩, ⟨"", "b@y.com"⟩] }, none) ∧
    demoMail.AddBcc demoEnv "c@z.com,b@y.com"
      = some ({ demoMail with Bcc := [⟨"", "c@z.com"⟩, ⟨"", "b@y.com"⟩] }, none) :=
  ⟨rfl, AddTo_AddCc_AddBcc_append demoEnv demoMail "c@z.com,b@y.com"
    [⟨"", "c@z.com"⟩, ⟨"", "b@y.com"⟩] rfl⟩

/-! ### Attachments -/

theorem dropWhile_sep (r : List Char) :
    r.dropWhile (fun c => c != '/') = [] ∨
      ∃ t, r.dropWhile (fun c => c != '/') = '/' :: t := by
  induction r with
  | nil => exact Or.inl rfl
  | cons c rest ih =>
    by_cases hc : c = '/'
    · exact Or.inr ⟨rest, by rw [List.dropWhile_cons_of_neg (by simp [hc]), hc]⟩
    · rw [List.dropWhile_cons_of_pos (by simpa using hc)]
      exact ih

/-- The function `filepath.Split` cuts the path after its last separator: the two parts
make up the path, the second has no separator, and the first is empty or ends with one. -/
theorem Split_spec (p : String) :
    (filepath.Split p).1 ++ (filepath.Split p).2 = p ∧
    '/' ∉ (filepath.Split p).2.data ∧
    ((filepath.Split p).1 = "" ∨ ∃ d, (filepath.Split p).1 = d ++ "/") := by
  refine ⟨?_, ?_, ?_⟩
  · apply String.ext
    simp only [filepath.Split, String.data_append]
    rw [← List.reverse_append, List.takeWhile_append_dropWhile, List.reverse_reverse]
  · simp only [filepath.Split, List.mem_reverse]
    intro hmem
    have := List.mem_takeWhile_imp hmem
    simp at this
  · simp only [filepath.Split]
    rcases dropWhile_sep p.data.reverse with h | ⟨t, h⟩
    · left
      rw [h]
      rfl
    · right
      rw [h]
      exact ⟨String.mk t.reverse, by apply String.ext; simp⟩

/-- C13: `Attach p` stores `p` under the part of `p` after its last separator, whether the
file exists or not, and changes nothing else; the entries under other keys stay; a second
path with the same last part takes the place of the first and the number of entries does
not change. -/
theorem Attach_spec (m : MailContent) (p p2 : String) :
    m.Attach p = { m with Attachments := m.Attachments.insert (filepath.Split p).2 p } ∧
    ((filepath.Split p).1 ++ (filepath.Split p).2 = p ∧
      '/' ∉ (filepath.Split p).2.data ∧
      ((filepath.Split p).1 = "" ∨ ∃ d, (filepath.Split p).1 = d ++ "/")) ∧
    (m.Attach p).Attachments.lookup (filepath.Split p).2 = some p ∧
    (∀ k, k ≠ (filepath.Split p).2 →
      (m.Attach p).Attachments.lookup k = m.Attachments.lookup k) ∧
    ((filepath.Split p2).2 = (filepath.Split p).2 →
      ((m.Attach p).Attach p2).Attachments.lookup (filepath.Split p).2 = some p2 ∧
      ((m.Attach p).Attach p2).Attachments.entries.length
        = (m.Attach p).Attachments.entries.length ∧
      (∀ k, k ≠ (filepath.Split p).2 →
        ((m.Attach p).Attach p2).Attachments.lookup k = m.Attachments.lookup k)) := by
  refine ⟨rfl, Split_spec p, ?_, ?_, ?_⟩
  · simp [MailContent.Attach]
  · intro k hk
    simp [MailContent.Attach, AList.lookup_insert_ne hk]
  · intro hsame
    simp only [MailContent.Attach, hsame, AList.insert_insert, AList.lookup_insert,
      AList.insert_entries, List.length_cons, true_and]
    intro k hk
    exact AList.lookup_insert_ne hk

theorem Attach_spec_witness :
    (filepath.Split "/old/report.pdf").2 = (filepath.Split "/data/report.pdf").2 ∧
    (demoMail.Attach "/data/report.pdf").Attachments.entries
      = [⟨"report.pdf", "/data/report.pdf"⟩] ∧
    ((demoMail.Attach "/data/report.pdf").Attach "/old/report.pdf").Attachments.entries
      = [⟨"report.pdf", "/old/report.pdf"⟩] ∧
    ((demoMail.Attach "/data/report.pdf").Attach "/old/report.pdf").Attachments.lookup
        (filepath.Split "/data/report.pdf").2 = some "/old/report.pdf" :=
  ⟨by decide, by decide, by decide,
    ((Attach_spec demoMail "/data/report.pdf" "/old/report.pdf").2.2.2.2 (by decide)).1⟩

/-! ### The buffer of a message without attachments -/

theorem getStringAddress_eq (env : Env) (l : List Address) :
    getStringAddress env l = ",".intercalate (l.map env.addressString) := by
  simp [getStringAddress, foldl_snoc_map]

/-- The header loop, with its guard, writes the lines of the visited entries. -/
theorem headers_written (env : Env) (m : MailContent) (hr : env.RangeOk) (buf : String) :
    (if m.Headers.entries.length > 0 then
        writeHeaders (env.headerOrder m.Headers.entries) buf
      else buf)
      = buf ++ concat ((env.headerOrder m.Headers.entries).map headerLine) := by
  by_cases h : m.Headers.entries.length > 0
  · simp only [h, if_true, writeHeaders_eq]
  · have h0 : m.Headers.entries = [] := by
      cases hl : m.Headers.entries with
      | nil => rfl
      | cons a l => rw [hl] at h; simp at h
    have hp := hr.1 m.Headers.entries
    rw [h0] at hp
    have hv : env.headerOrder [] = [] := List.perm_nil.mp hp
    simp only [h, if_false, h0, hv, List.map_nil, concat]
    apply String.ext
    simp

/-- C14: for a message with a sender, a recipient and no attachment the transport gets
exactly the lines `From:`, `Date:`, `To:`, `Cc:` (only when `Cc` is not empty), `Subject:`,
`Reply-To:` (only when its address is not empty), one line per custom header, the line
`Content-Type: <bodyContentType>; charset=utf-8`, an empty line, the body and a CRLF, in
this order; the body content type is `text/plain` for `NewMessage` and `text/html` for
`NewHTMLMessage`. -/
theorem SendMail_plain_buffer (env : Env) (m : MailContent) (hr : env.RangeOk)
    (hf : m.From.Address ≠ "") (ht : m.To ≠ []) (ha : m.Attachments.entries = [])
    (srv : SmtpServer) (subject body : String) :
    (∃ c, (m.SendMail env).calls = [c] ∧
      c.msg = ("From: " ++ env.addressString m.From ++ "\r\n")
        ++ ("Date: " ++ env.now ++ "\r\n")
        ++ ("To: " ++ ",".intercalate (m.To.map env.addressString) ++ "\r\n")
        ++ (if m.Cc ≠ [] then
              "Cc: " ++ ",".intercalate (m.Cc.map env.addressString) ++ "\r\n" else "")
        ++ ("Subject: =?UTF-8?B?" ++ base64.EncodeToString (bytesOf m.Subject) ++ "?="
              ++ "\r\n")
        ++ (if m.ReplyTo.Address ≠ "" then
              "Reply-To: " ++ env.addressString m.ReplyTo ++ "\r\n" else "")
        ++ concat ((env.headerOrder m.Headers.entries).map headerLine)
        ++ ("Content-Type: " ++ m.BodyContentType ++ "; charset=utf-8" ++ "\r\n")
        ++ "\r\n"
        ++ m.Body
        ++ "\r\n") ∧
    (env.headerOrder m.Headers.entries).Perm m.Headers.entries ∧
    (srv.NewMessage subject body).BodyContentType = "text/plain" ∧
    (srv.NewHTMLMessage subject body).BodyContentType = "text/html" := by
  refine ⟨?_, hr.1 _, rfl, rfl⟩
  have hser : m.serialized env = .ok (m.bodyBuf env (m.fixedBuf env)) := by
    simp [MailContent.serialized, MailContent.attachBuf, ha]
  refine ⟨m.transportCall (m.bodyBuf env (m.fixedBuf env)), ?_, ?_⟩
  · rw [SendMail_eq env m hf ht, hser]
  · have hb : m.bodyBuf env (m.fixedBuf env)
        = m.fixedBuf env ++ concat ((env.headerOrder m.Headers.entries).map headerLine)
          ++ ("Content-Type: " ++ m.BodyContentType ++ "; charset=utf-8\r\n\r\n")
          ++ m.Body ++ "\r\n" := by
      unfold MailContent.bodyBuf
      simp only [headers_written env m hr, ha, List.length_nil, gt_iff_lt, lt_self_iff_false,
        if_false]
    have hcc : (m.Cc.length > 0) ↔ m.Cc ≠ [] := List.length_pos
    have hlit : ("; charset=utf-8\r\n\r\n" : String) = "; charset=utf-8" ++ "\r\n" ++ "\r\n" := by
      decide
    simp only [MailContent.transportCall]
    rw [hb, fixedBuf_subject, getStringAddress_eq, getStringAddress_eq, hlit]
    apply String.ext
    by_cases h1 : m.Cc = [] <;> by_cases h2 : m.ReplyTo.Address = "" <;>
      simp [h1, h2, String.data_append, List.append_assoc, List.length_pos]

theorem SendMail_plain_buffer_witness :
    demoEnv.RangeOk ∧ demoMail.From.Address ≠ "" ∧ demoMail.To ≠ [] ∧
    demoMail.Attachments.entries = [] ∧
    (∃ c, (demoMail.SendMail demoEnv).calls = [c] ∧
      c.msg = ("From: " ++ demoEnv.addressString demoMail.From ++ "\r\n")
        ++ ("Date: " ++ demoEnv.now ++ "\r\n")
        ++ ("To: " ++ ",".intercalate (demoMail.To.map demoEnv.addressString) ++ "\r\n")
        ++ (if demoMail.Cc ≠ [] then
              "Cc: " ++ ",".intercalate (demoMail.Cc.map demoEnv.addressString) ++ "\r\n"
            else "")
        ++ ("Subject: =?UTF-8?B?" ++ base64.EncodeToString (bytesOf demoMail.Subject) ++ "?="
              ++ "\r\n")
        ++ (if demoMail.ReplyTo.Address ≠ "" then
              "Reply-To: " ++ demoEnv.addressString demoMail.ReplyTo ++ "\r\n" else "")
        ++ concat ((demoEnv.headerOrder demoMail.Headers.entries).map headerLine)
        ++ ("Content-Type: " ++ demoMail.BodyContentType ++ "; charset=utf-8" ++ "\r\n")
        ++ "\r\n"
        ++ demoMail.Body
        ++ "\r\n") ∧
    (demoMail.SendMail demoEnv).calls = [demoCall] :=
  ⟨demoEnv_rangeOk, by decide, by decide, rfl,
    (SendMail_plain_buffer demoEnv demoMail demoEnv_rangeOk (by decide) (by decide) rfl
      demoServer "Hi" "Test").1, by decide⟩

/-! ### The multipart body -/

/-- The text of an attachment begins with a delimiter line of its own and ends with the
delimiter that the closing marker is made of. -/
theorem attachmentPart_ends (env : Env) (filename : String) (data : List UInt8) :
    ∃ mid, attachmentPart env filename data
      = ("\r\n" ++ ("\r\n--" ++ boundary ++ "\r\n")) ++ mid ++ ("\r\n--" ++ boundary) := by
  have hlit : ("\r\n\r\n--" : String) = "\r\n" ++ "\r\n--" := by decide
  unfold attachmentPart
  rw [hlit]
  exact ⟨(if env.TypeByExtension (filepath.Ext filename) ≠ "" then
          "Content-Type: " ++ env.TypeByExtension (filepath.Ext filename) ++ "\r\n"
        else "Content-Type: application/octet-stream\r\n")
      ++ "Content-Transfer-Encoding: base64\r\n"
      ++ "Content-Disposition: attachment; filename=\"=?UTF-8?B?"
      ++ base64.EncodeToString (bytesOf filename)
      ++ "?=\"\r\n\r\n"
      ++ String.mk (wrapped (base64.Encode data) 0), by simp only [String.append_assoc]⟩

/-- C15 (what the code does for two or more attachments): when the loop visits a second
attachment, the buffer handed to the transport has the delimiter line that ends the first
attachment, then an empty line, then the delimiter line of the second attachment, so the
first of these two delimiter lines is not followed by a `Content-Type:` line. -/
theorem SendMail_double_delimiter (env : Env) (m : MailContent) (hr : env.RangeOk)
    (hf : m.From.Address ≠ "") (ht : m.To ≠ [])
    (f1 p1 f2 p2 : String) (rest : List StrEntry)
    (hvis : env.attachOrder m.Attachments.entries = ⟨f1, p1⟩ :: ⟨f2, p2⟩ :: rest)
    (c : SmtpCall) (hc : c ∈ (m.SendMail env).calls) :
    ∃ pre post, c.msg = pre ++ ("\r\n--" ++ boundary ++ "\r\n")
      ++ ("\r\n--" ++ boundary ++ "\r\n") ++ post := by
  rw [SendMail_eq env m hf ht] at hc
  cases hser : m.serialized env with
  | error err => simp [hser] at hc
  | ok buf =>
    simp only [hser, List.mem_singleton] at hc
    subst hc
    simp only [MailContent.transportCall]
    unfold MailContent.serialized MailContent.attachBuf at hser
    split at hser
    · rw [hvis] at hser
      split at hser
      · cases hser
      · rename_i b hw
        simp only [Except.ok.injEq] at hser
        by_cases hex1 : env.FileExists p1 = true
        · cases hrd1 : env.ReadFile p1 with
          | error err => simp [writeAttachments, hex1, hrd1] at hw
          | ok d1 =>
            rw [writeAttachments_cons_ok env f1 p1 _ _ d1 hex1 hrd1] at hw
            by_cases hex2 : env.FileExists p2 = true
            · cases hrd2 : env.ReadFile p2 with
              | error err => simp [writeAttachments, hex2, hrd2] at hw
              | ok d2 =>
                rw [writeAttachments_cons_ok env f2 p2 _ _ d2 hex2 hrd2] at hw
                obtain ⟨t, ht2⟩ := writeAttachments_append env _ _ _ hw
                obtain ⟨mid1, hm1⟩ := attachmentPart_ends env f1 d1
                obtain ⟨mid2, hm2⟩ := attachmentPart_ends env f2 d2
                refine ⟨m.bodyBuf env (m.fixedBuf env)
                  ++ ("\r\n" ++ ("\r\n--" ++ boundary ++ "\r\n"))
                  ++ mid1, mid2 ++ ("\r\n--" ++ boundary) ++ t ++ "--", ?_⟩
                rw [← hser, ht2, hm1, hm2]
                simp only [String.append_assoc]
            · simp [writeAttachments, hex2] at hw
        · simp [writeAttachments, hex1] at hw
    · rename_i hlen
      have hp : m.Attachments.entries = [] := by
        cases hl : m.Attachments.entries with
        | nil => rfl
        | cons a l => rw [hl] at hlen; simp at hlen
      have hperm := hr.2 m.Attachments.entries
      rw [hvis, hp] at hperm
      exact absurd (List.perm_nil.mp hperm) (by simp)

theorem SendMail_double_delimiter_witness :
    demoEnv.RangeOk ∧ twoMail.From.Address ≠ "" ∧ twoMail.To ≠ [] ∧
    demoEnv.attachOrder twoMail.Attachments.entries
      = [⟨"line.bin", "/data/line.bin"⟩, ⟨"a.txt", "/data/a.txt"⟩] ∧
    (∃ c, (twoMail.SendMail demoEnv).calls = [c]) ∧
    ((twoMail.SendMail demoEnv).calls.headD demoCall) ∈ (twoMail.SendMail demoEnv).calls ∧
    (∃ pre post, ((twoMail.SendMail demoEnv).calls.headD demoCall).msg
      = pre ++ ("\r\n--" ++ boundary ++ "\r\n")
        ++ ("\r\n--" ++ boundary ++ "\r\n") ++ post) :=
  ⟨demoEnv_rangeOk, by decide, by decide, by decide, ⟨_, rfl⟩, List.mem_singleton.mpr rfl,
    SendMail_double_delimiter demoEnv twoMail demoEnv_rangeOk (by decide)
      (by decide) "line.bin" "/data/line.bin" "a.txt" "/data/a.txt" [] (by decide)
      ((twoMail.SendMail demoEnv).calls.headD demoCall) (List.mem_singleton.mpr rfl)⟩

/-! ### CRLF as the only line terminator -/

theorem crlfText_cons (c : Char) (l : List Char) (h1 : c ≠ '\r') (h2 : c ≠ '\n') :
    crlfText (c :: l) = crlfText l := by
  cases l with
  | nil => simp [crlfText, h1, h2]
  | cons d rest => simp [crlfText, h1, h2]

theorem crlfText_crlf (l : List Char) : crlfText ('\r' :: '\n' :: l) = crlfText l := by
  simp [crlfText]

theorem crlfText_of_clean (l : List Char) (h : ∀ c ∈ l, c ≠ '\r' ∧ c ≠ '\n') :
    crlfText l = true := by
  induction l with
  | nil => rfl
  | cons c rest ih =>
    rw [crlfText_cons c rest (h c (List.mem_cons_self _ _)).1 (h c (List.mem_cons_self _ _)).2]
    exact ih (fun x hx => h x (List.mem_cons_of_mem _ hx))

theorem crlfText_append (a b : List Char) (ha : crlfText a = true) (hb : crlfText b = true) :
    crlfText (a ++ b) = true := by
  induction a using crlfText.induct with
  | case1 => simpa using hb
  | case2 c =>
    simp only [crlfText, Bool.and_eq_true, bne_iff_ne, ne_eq] at ha
    rw [List.singleton_append, crlfText_cons c b ha.1 ha.2]
    exact hb
  | case3 d rest ih =>
    simp only [crlfText, if_true, Bool.and_eq_true, beq_iff_eq] at ha
    rw [ha.1, List.cons_append, List.cons_append, crlfText_crlf]
    exact ih ha.2
  | case4 c d rest hc ih =>
    simp only [crlfText, hc, if_false, Bool.and_eq_true, bne_iff_ne, ne_eq] at ha
    rw [List.cons_append, crlfText_cons c _ hc ha.1]
    exact ih ha.2

theorem crlfText_throughout (l : List Char) (h : crlfText l = true) : CRLFThroughout l := by
  induction l using crlfText.induct with
  | case1 => exact ⟨by simp, by simp⟩
  | case2 c =>
    simp only [crlfText, Bool.and_eq_true, bne_iff_ne, ne_eq] at h
    constructor
    · intro i hi
      cases i with
      | zero => simp at hi; exact absurd hi h.2
      | succ k => simp at hi
    · intro i hi
      cases i with
      | zero => simp at hi; exact absurd hi h.1
      | succ k => simp at hi
  | case3 d rest ih =>
    simp only [crlfText, if_true, Bool.and_eq_true, beq_iff_eq] at h
    obtain ⟨ih1, ih2⟩ := ih h.2
    rw [h.1]
    constructor
    · intro i hi
      match i, hi with
      | 0, hi => simp at hi
      | 1, _ => exact ⟨0, rfl, rfl⟩
      | k + 2, hi =>
        simp only [List.getElem?_cons_succ] at hi
        obtain ⟨j, hj1, hj2⟩ := ih1 k hi
        exact ⟨j + 2, by omega, by simpa using hj2⟩
    · intro i hi
      match i, hi with
      | 0, _ => simp
      | 1, hi => simp at hi
      | k + 2, hi =>
        simp only [List.getElem?_cons_succ] at hi
        have := ih2 k hi
        simpa using this
  | case4 c d rest hc ih =>
    simp only [crlfText, hc, if_false, Bool.and_eq_true, bne_iff_ne, ne_eq] at h
    obtain ⟨ih1, ih2⟩ := ih h.2
    constructor
    · intro i hi
      match i, hi with
      | 0, hi => simp at hi; exact absurd hi h.1
      | k + 1, hi =>
        simp only [List.getElem?_cons_succ] at hi
        obtain ⟨j, hj1, hj2⟩ := ih1 k hi
        exact ⟨j + 1, by omega, by simpa using hj2⟩
    · intro i hi
      match i, hi with
      | 0, hi => simp at hi; exact absurd hi hc
      | k + 1, hi =>
        simp only [List.getElem?_cons_succ] at hi
        have := ih2 k hi
        simpa using this

theorem crlf_append (a b : String) (ha : crlfText a.data = true)
    (hb : crlfText b.data = true) : crlfText (a ++ b).data = true := by
  rw [String.data_append]
  exact crlfText_append _ _ ha hb

theorem crlf_clean (s : String) (h : NoCRLF s) : crlfText s.data = true :=
  crlfText_of_clean s.data h

theorem crlf_intercalate_go (acc sep : String) (l : List String)
    (hacc : crlfText acc.data = true) (hsep : crlfText sep.data = true)
    (hl : ∀ a ∈ l, crlfText a.data = true) :
    crlfText (String.intercalate.go acc sep l).data = true := by
  induction l generalizing acc with
  | nil => simpa [String.intercalate.go] using hacc
  | cons a rest ih =>
    simp only [String.intercalate.go]
    exact ih _ (crlf_append _ _ (crlf_append _ _ hacc hsep) (hl a (List.mem_cons_self _ _)))
      (fun x hx => hl x (List.mem_cons_of_mem _ hx))

theorem crlf_getStringAddress (env : Env) (l : List Address)
    (h : ∀ a ∈ l, NoCRLF (env.addressString a)) :
    crlfText (getStringAddress env l).data = true := by
  rw [getStringAddress_eq]
  cases l with
  | nil =>
    simp only [List.map_nil, String.intercalate]
    decide
  | cons a rest =>
    simp only [List.map_cons, String.intercalate]
    apply crlf_intercalate_go
    · exact crlf_clean _ (h a (List.mem_cons_self _ _))
    · decide
    · intro x hx
      obtain ⟨y, hy, rfl⟩ := List.mem_map.mp hx
      exact crlf_clean _ (h y (List.mem_cons_of_mem _ hy))

theorem crlf_EncodeToString (d : List UInt8) :
    crlfText (base64.EncodeToString d).data = true :=
  crlfText_of_clean _ (Encode_ne_crlf d)

theorem crlf_fixedBuf (env : Env) (m : MailContent) (hdate : NoCRLF env.now)
    (hc : m.CleanText env) : crlfText (m.fixedBuf env).data = true := by
  obtain ⟨_, _, _, hfrom, hreply, hto, hcc, _⟩ := hc
  have h1 := crlf_clean _ hfrom
  have h2 := crlf_clean _ hreply
  have h3 := crlf_clean _ hdate
  have h4 := crlf_getStringAddress env m.To hto
  have h5 := crlf_getStringAddress env m.Cc hcc
  have h6 := crlf_EncodeToString (bytesOf m.Subject)
  unfold MailContent.fixedBuf
  simp only []
  split <;> split <;>
    (repeat' apply crlf_append) <;> first | assumption | decide

theorem crlf_headers (l : List StrEntry) (h : ∀ e ∈ l, NoCRLF e.1 ∧ NoCRLF e.2) :
    crlfText (concat (l.map headerLine)).data = true := by
  induction l with
  | nil => decide
  | cons e rest ih =>
    simp only [List.map_cons, concat, headerLine]
    have hk := crlf_clean _ (h e (List.mem_cons_self _ _)).1
    have hv := crlf_clean _ (h e (List.mem_cons_self _ _)).2
    have ih2 := ih (fun x hx => h x (List.mem_cons_of_mem _ hx))
    (repeat' apply crlf_append) <;> first | assumption | decide

theorem crlf_wrapped (b : List Char) (i : Nat) (hb : ∀ c ∈ b, c ≠ '\r' ∧ c ≠ '\n') :
    crlfText (wrapped b i) = true := by
  induction b generalizing i with
  | nil => rfl
  | cons c rest ih =>
    have hc := hb c (List.mem_cons_self _ _)
    have ih2 := ih (i + 1) (fun x hx => hb x (List.mem_cons_of_mem _ hx))
    simp only [wrapped]
    rw [crlfText_cons c _ hc.1 hc.2]
    split
    · rw [crlfText_crlf]
      exact ih2
    · exact ih2

theorem crlf_attachmentPart (env : Env) (filename : String) (data : List UInt8)
    (h : NoCRLF (env.TypeByExtension (filepath.Ext filename))) :
    crlfText (attachmentPart env filename data).data = true := by
  have h1 := crlf_clean _ h
  have h2 := crlf_EncodeToString (bytesOf filename)
  have h3 : crlfText (String.mk (wrapped (base64.Encode data) 0)).data = true :=
    crlf_wrapped _ 0 (Encode_ne_crlf data)
  have h4 : crlfText boundary.data = true := by decide
  unfold attachmentPart
  split <;> (repeat' apply crlf_append) <;> assumption

theorem crlf_writeAttachments (env : Env) (l : List StrEntry) (buf b : String)
    (hbuf : crlfText buf.data = true)
    (hl : ∀ e ∈ l, NoCRLF (env.TypeByExtension (filepath.Ext e.1)))
    (h : writeAttachments env l buf = .ok b) : crlfText b.data = true := by
  induction l generalizing buf with
  | nil =>
    simp only [writeAttachments, Except.ok.injEq] at h
    rw [← h]
    exact hbuf
  | cons a rest ih =>
    obtain ⟨filename, abspath⟩ := a
    by_cases hex : env.FileExists abspath = true
    · cases hrd : env.ReadFile abspath with
      | error err => simp [writeAttachments, hex, hrd] at h
      | ok data =>
        rw [writeAttachments_cons_ok env filename abspath rest buf data hex hrd] at h
        exact ih _ (crlf_append _ _ hbuf
            (crlf_attachmentPart env filename data (hl _ (List.mem_cons_self _ _))))
          (fun e he => hl e (List.mem_cons_of_mem _ he)) h
    · simp [writeAttachments, hex] at h

theorem crlf_bodyBuf (env : Env) (m : MailContent) (hr : env.RangeOk) (buf : String)
    (hbuf : crlfText buf.data = true) (hc : m.CleanText env) :
    crlfText (m.bodyBuf env buf).data = true := by
  obtain ⟨hbody, hbct, hhead, _⟩ := hc
  have h1 := crlf_clean _ hbody
  have h2 := crlf_clean _ hbct
  have h3 : crlfText (concat ((env.headerOrder m.Headers.entries).map headerLine)).data
      = true :=
    crlf_headers _ (fun e he => hhead e ((hr.1 _).mem_iff.mp he))
  have h4 : crlfText boundary.data = true := by decide
  unfold MailContent.bodyBuf
  simp only [writeHeaders_eq]
  split <;> split <;> (repeat' apply crlf_append) <;> assumption

/-- C16: when the date text of the clock and the texts that the message brings into the
buffer (body, body content type, header keys and values, formatted mailboxes, MIME types of
the attachments) have no CR and no LF, then in every buffer handed to the transport each LF
comes right after a CR and each CR comes right before an LF, with or without
attachments. -/
theorem SendMail_crlf (env : Env) (m : MailContent) (hr : env.RangeOk)
    (hdate : NoCRLF env.now) (hclean : m.CleanText env)
    (c : SmtpCall) (hc : c ∈ (m.SendMail env).calls) :
    CRLFThroughout c.msg.data := by
  by_cases hf : m.From.Address = ""
  · rw [SendMail_missing_sender_aux env m hf] at hc
    cases hc
  · by_cases ht : m.To = []
    · rw [SendMail_missing_recipient_aux env m hf ht] at hc
      cases hc
    · rw [SendMail_eq env m hf ht] at hc
      cases hser : m.serialized env with
      | error err => simp [hser] at hc
      | ok buf =>
        simp only [hser, List.mem_singleton] at hc
        subst hc
        simp only [MailContent.transportCall]
        apply crlfText_throughout
        have hbody := crlf_bodyBuf env m hr _ (crlf_fixedBuf env m hdate hclean) hclean
        unfold MailContent.serialized MailContent.attachBuf at hser
        split at hser
        · split at hser
          · cases hser
          · rename_i b hw
            simp only [Except.ok.injEq] at hser
            rw [← hser]
            apply crlf_append
            · exact crlf_writeAttachments env _ _ b hbody
                (fun e he => hclean.2.2.2.2.2.2.2 e ((hr.2 _).mem_iff.mp he)) hw
            · decide
        · simp only [Except.ok.injEq] at hser
          rw [← hser]
          exact hbody

theorem SendMail_crlf_witness :
    demoEnv.RangeOk ∧ NoCRLF demoEnv.now ∧ lineMail.CleanText demoEnv ∧
    ((lineMail.SendMail demoEnv).calls.headD demoCall) ∈ (lineMail.SendMail demoEnv).calls ∧
    CRLFThroughout ((lineMail.SendMail demoEnv).calls.headD demoCall).msg.data :=
  have h1 : NoCRLF demoEnv.now := by unfold NoCRLF; decide
  have h2 : lineMail.CleanText demoEnv := by
    unfold MailContent.CleanText NoCRLF
    decide
  ⟨demoEnv_rangeOk, h1, h2, List.mem_singleton.mpr rfl,
    SendMail_crlf demoEnv lineMail demoEnv_rangeOk h1 h2
      ((lineMail.SendMail demoEnv).calls.headD demoCall) (List.mem_singleton.mpr rfl)⟩

/-! ### The order of the custom headers -/

/-- The body phase writes the header lines of the visited entries right after the buffer
it starts from, also when there is no header. -/
theorem bodyBuf_header_block (env : Env) (m : MailContent) (hr : env.RangeOk)
    (buf : String) :
    ∃ t, m.bodyBuf env buf
      = buf ++ concat ((env.headerOrder m.Headers.entries).map headerLine) ++ t := by
  unfold MailContent.bodyBuf
  simp only [headers_written env m hr]
  split <;> exact ⟨_, by simp only [String.append_assoc]; rfl⟩

/-- C17 (as stated, refuted): the same message, with the same clock value, is serialized
with its two header lines in one order by one runtime and in the other order by another;
both visit every entry of the map once. -/
theorem SendMail_header_order_counterexample :
    demoEnv.RangeOk ∧ demoEnvRev.RangeOk ∧ demoEnv.now = demoEnvRev.now ∧
    tagMail.Headers.entries.length = 2 ∧
    (tagMail.SendMail demoEnv).calls.map (fun c => c.msg)
      = ["From: <a@x.com>\r\nDate: Mon, 02 Jan 2006 15:04:05 -0700\r\nTo: <b@y.com>\r\n"
          ++ "Subject: =?UTF-8?B?SGk=?=\r\nX-B: 2\r\nX-A: 1\r\n"
          ++ "Content-Type: text/plain; charset=utf-8\r\n\r\nTest\r\n"] ∧
    (tagMail.SendMail demoEnvRev).calls.map (fun c => c.msg)
      = ["From: <a@x.com>\r\nDate: Mon, 02 Jan 2006 15:04:05 -0700\r\nTo: <b@y.com>\r\n"
          ++ "Subject: =?UTF-8?B?SGk=?=\r\nX-A: 1\r\nX-B: 2\r\n"
          ++ "Content-Type: text/plain; charset=utf-8\r\n\r\nTest\r\n"] ∧
    (tagMail.SendMail demoEnv).calls.map (fun c => c.msg)
      ≠ (tagMail.SendMail demoEnvRev).calls.map (fun c => c.msg) :=
  ⟨demoEnv_rangeOk, ⟨fun l => List.reverse_perm l, fun l => List.Perm.refl l⟩, rfl,
    by decide, by decide, by decide, by decide⟩

/-- C17 (amended): `SendMail` writes, right after the fixed headers, one line `Key: Value`
for each entry of the header map, in the order in which the runtime visits the map; two
serializations of the same message have the same header lines up to their order. -/
theorem SendMail_header_lines (env env2 : Env) (m : MailContent)
    (hr : env.RangeOk) (hr2 : env2.RangeOk)
    (hf : m.From.Address ≠ "") (ht : m.To ≠ []) :
    (∀ c ∈ (m.SendMail env).calls, ∃ post,
      c.msg = m.fixedBuf env
        ++ concat ((env.headerOrder m.Headers.entries).map headerLine) ++ post) ∧
    (env.headerOrder m.Headers.entries).Perm m.Headers.entries ∧
    ((env.headerOrder m.Headers.entries).map headerLine).Perm
      ((env2.headerOrder m.Headers.entries).map headerLine) ∧
    ((m.SendMail env).calls = [] →
      ∃ e ∈ env.attachOrder m.Attachments.entries,
        env.FileExists e.2 = false ∨ ∃ err, env.ReadFile e.2 = .error err) := by
  refine ⟨?_, hr.1 _, ((hr.1 _).trans (hr2.1 _).symm).map _, ?_⟩
  · intro c hc
    rw [SendMail_eq env m hf ht] at hc
    cases hser : m.serialized env with
    | error err => simp [hser] at hc
    | ok buf =>
      simp only [hser, List.mem_singleton] at hc
      subst hc
      unfold MailContent.serialized at hser
      obtain ⟨t1, h1⟩ := bodyBuf_header_block env m hr (m.fixedBuf env)
      obtain ⟨t2, h2⟩ := attachBuf_append env m _ buf hser
      rw [h1] at h2
      exact ⟨t1 ++ t2, by
        simp only [MailContent.transportCall]
        rw [h2, String.append_assoc]⟩
  · intro hc
    rw [SendMail_eq env m hf ht] at hc
    cases hser : m.serialized env with
    | error err => exact attachBuf_error env m _ err hser
    | ok buf => simp [hser] at hc

theorem SendMail_header_lines_witness :
    demoEnv.RangeOk ∧ demoEnvRev.RangeOk ∧ tagMail.From.Address ≠ "" ∧ tagMail.To ≠ [] ∧
    (demoEnv.headerOrder tagMail.Headers.entries).map headerLine
      = ["X-B: 2\r\n", "X-A: 1\r\n"] ∧
    (demoEnvRev.headerOrder tagMail.Headers.entries).map headerLine
      = ["X-A: 1\r\n", "X-B: 2\r\n"] ∧
    ((demoEnv.headerOrder tagMail.Headers.entries).map headerLine).Perm
      ((demoEnvRev.headerOrder tagMail.Headers.entries).map headerLine) :=
  ⟨demoEnv_rangeOk, ⟨fun l => List.reverse_perm l, fun l => List.Perm.refl l⟩,
    by decide, by decide, by decide, by decide,
    (SendMail_header_lines demoEnv demoEnvRev tagMail demoEnv_rangeOk
      ⟨fun l => List.reverse_perm l, fun l => List.Perm.refl l⟩
      (by decide) (by decide)).2.2.1⟩

/-! ### Bcc recipients -/

/-- C18: a message and the same message with another `Bcc` list give the transport the
same buffers, in the same surroundings; the `Bcc` addresses are the end of the list of
envelope recipients. -/
theorem SendMail_bcc_hidden (env : Env) (m : MailContent) (bcc2 : List Address) :
    (({ m with Bcc := bcc2 } : MailContent).SendMail env).calls.map (fun c => c.msg)
      = (m.SendMail env).calls.map (fun c => c.msg) ∧
    (∀ c ∈ (m.SendMail env).calls,
      c.recipients = (m.To.map (fun a => a.Address) ++ m.Cc.map (fun a => a.Address))
        ++ m.Bcc.map (fun a => a.Address)) ∧
    (∀ c ∈ (({ m with Bcc := bcc2 } : MailContent).SendMail env).calls,
      c.recipients = (m.To.map (fun a => a.Address) ++ m.Cc.map (fun a => a.Address))
        ++ bcc2.map (fun a => a.Address)) := by
  have hrec : ∀ (m : MailContent), ∀ c ∈ (m.SendMail env).calls,
      c.recipients = (m.To.map (fun a => a.Address) ++ m.Cc.map (fun a => a.Address))
        ++ m.Bcc.map (fun a => a.Address) := by
    intro m c hc
    obtain ⟨buf, _, h2⟩ := SendMail_calls env m c hc
    rw [h2]
    exact getToAddressList_eq m
  refine ⟨?_, hrec m, hrec _⟩
  by_cases hf : m.From.Address = ""
  · rw [SendMail_missing_sender_aux env m hf,
      SendMail_missing_sender_aux env { m with Bcc := bcc2 } hf]
  · by_cases ht : m.To = []
    · rw [SendMail_missing_recipient_aux env m hf ht,
        SendMail_missing_recipient_aux env { m with Bcc := bcc2 } hf ht]
    · rw [SendMail_eq env m hf ht, SendMail_eq env { m with Bcc := bcc2 } hf ht]
      have hs : MailContent.serialized env { m with Bcc := bcc2 } = m.serialized env := rfl
      rw [hs]
      cases m.serialized env with
      | error err => rfl
      | ok buf => rfl

theorem SendMail_bcc_hidden_witness :
    (bccMail.SendMail demoEnv).calls.map (fun c => c.msg)
      = (demoMail.SendMail demoEnv).calls.map (fun c => c.msg) ∧
    (bccMail.SendMail demoEnv).calls.map (fun c => c.recipients)
      = [["b@y.com", "hidden@z.com"]] :=
  ⟨(SendMail_bcc_hidden demoEnv demoMail [{ Name := "", Address := "hidden@z.com" }]).1,
    by decide⟩

/-! ### The first entry of a parsed list -/

/-- C20 (what the code does): when the parser succeeds with an empty list, `SetFrom` and
`SetReplyTo` read `emails[0]` of that list and panic. -/
theorem SetFrom_SetReplyTo_empty_list (env : Env) (m : MailContent) (s : String)
    (h : env.ParseAddressList s = .ok []) :
    m.SetFrom env s = none ∧ m.SetReplyTo env s = none := by
  simp [MailContent.SetFrom, MailContent.SetReplyTo, MailContent.addMailAddress, h]

theorem SetFrom_SetReplyTo_empty_list_witness :
    groupEnv.ParseAddressList "undisclosed-recipients:;" = .ok [] ∧
    demoMail.SetFrom groupEnv "undisclosed-recipients:;" = none ∧
    demoMail.SetReplyTo groupEnv "undisclosed-recipients:;" = none :=
  ⟨rfl, SetFrom_SetReplyTo_empty_list groupEnv demoMail "undisclosed-recipients:;" rfl⟩

/-! ### The wrapped payload keeps the data -/

theorem removeCRLF_cons (c : Char) (l : List Char) (hc : c ≠ '\r') :
    removeCRLF (c :: l) = c :: removeCRLF l := by
  cases l with
  | nil => simp [removeCRLF]
  | cons d rest => simp [removeCRLF, hc]

theorem removeCRLF_crlf (l : List Char) : removeCRLF ('\r' :: '\n' :: l) = removeCRLF l := by
  simp [removeCRLF]

theorem removeCRLF_wrapped (b : List Char) (i : Nat)
    (hb : ∀ c ∈ b, c ≠ '\r' ∧ c ≠ '\n') : removeCRLF (wrapped b i) = b := by
  induction b generalizing i with
  | nil => rfl
  | cons c rest ih =>
    have hc := hb c (List.mem_cons_self _ _)
    have ih2 := ih (i + 1) (fun x hx => hb x (List.mem_cons_of_mem _ hx))
    simp only [wrapped]
    rw [removeCRLF_cons c _ hc.1]
    split
    · rw [removeCRLF_crlf, ih2]
    · rw [ih2]

theorem Encode_length (d : List UInt8) :
    (base64.Encode d).length = 4 * ((d.length + 2) / 3) := by
  induction d using base64.Encode.induct with
  | case1 => rfl
  | case2 a => simp [base64.Encode]
  | case3 a b => simp [base64.Encode]
  | case4 a b c rest ih =>
    simp only [base64.Encode, List.length_cons, ih]
    omega

theorem decChar_encChar (v : Nat) : base64.decChar (base64.encChar v) = some (v % 64) := by
  have h : ∀ n, n < 64 →
      base64.decChar (base64.encodeStd.data.getD n 'A') = some n := by
    decide
  exact h (v % 64) (Nat.mod_lt _ (by decide))

theorem encChar_ne_pad (v : Nat) : base64.encChar v ≠ '=' := by
  have h : ∀ n, n < 64 → base64.encodeStd.data.getD n 'A' ≠ '=' := by
    decide
  exact h (v % 64) (Nat.mod_lt _ (by decide))

theorem uint8_ofNat_eq (a : UInt8) (n : Nat) (h : n % 256 = a.toNat) : UInt8.ofNat n = a := by
  cases a with
  | mk bv =>
    simp only [UInt8.toNat] at h
    show UInt8.mk (BitVec.ofNat 8 n) = UInt8.mk bv
    congr 1
    apply BitVec.eq_of_toNat_eq
    simp [BitVec.toNat_ofNat, h]

theorem uint8_lt (a : UInt8) : a.toNat < 256 :=
  a.toBitVec.isLt

/-- Decoding undoes encoding. -/
theorem Decode_Encode (d : List UInt8) : base64.Decode (base64.Encode d) = some d := by
  induction d using base64.Encode.induct with
  | case1 => rfl
  | case2 a =>
    have ha := uint8_lt a
    simp only [base64.Encode, base64.Decode, decChar_encChar, and_self, if_true]
    congr 2
    apply uint8_ofNat_eq
    omega
  | case3 a b =>
    have ha := uint8_lt a
    have hb := uint8_lt b
    have hp := encChar_ne_pad ((a.toNat * 65536 + b.toNat * 256) / 64)
    simp only [base64.Encode, base64.Decode, decChar_encChar, hp, false_and, if_false,
      and_self, if_true]
    congr 2
    · apply uint8_ofNat_eq
      omega
    · congr 1
      apply uint8_ofNat_eq
      omega
  | case4 a b c rest ih =>
    have ha := uint8_lt a
    have hb := uint8_lt b
    have hc := uint8_lt c
    have hp := encChar_ne_pad (a.toNat * 65536 + b.toNat * 256 + c.toNat)
    simp only [base64.Encode, base64.Decode, decChar_encChar, hp, false_and, and_false,
      if_false, ih]
    congr 2
    · apply uint8_ofNat_eq
      omega
    · congr 1
      · apply uint8_ofNat_eq
        omega
      · congr 1
        apply uint8_ofNat_eq
        omega

/-- C19: the text that the wrapping loop writes for the data `d`, with its CRLF pairs
taken out, is the base64 text of `d`; that text has `4 * ceil(|d| / 3)` characters and
decodes to `d`. -/
theorem wrapped_payload_roundtrip (d : List UInt8) :
    (∀ buf, writeWrapped (base64.Encode d) 0 buf
      = buf ++ writeWrapped (base64.Encode d) 0 "") ∧
    removeCRLF (writeWrapped (base64.Encode d) 0 "").data = base64.Encode d ∧
    (base64.Encode d).length = 4 * ((d.length + 2) / 3) ∧
    base64.Decode (removeCRLF (writeWrapped (base64.Encode d) 0 "").data) = some d := by
  have hpay : writeWrapped (base64.Encode d) 0 ""
      = String.mk (wrapped (base64.Encode d) 0) := by
    rw [writeWrapped_eq]
    apply String.ext
    simp
  have hrem : removeCRLF (writeWrapped (base64.Encode d) 0 "").data = base64.Encode d := by
    rw [hpay]
    exact removeCRLF_wrapped _ 0 (Encode_ne_crlf d)
  refine ⟨?_, hrem, Encode_length d, ?_⟩
  · intro buf
    rw [hpay, writeWrapped_eq]
  · rw [hrem]
    exact Decode_Encode d

theorem wrapped_payload_roundtrip_witness :
    removeCRLF (writeWrapped (base64.Encode (List.replicate 57 65)) 0 "").data
      = base64.Encode (List.replicate 57 65) ∧
    (base64.Encode (List.replicate 57 65)).length = 76 ∧
    (writeWrapped (base64.Encode (List.replicate 57 65)) 0 "").data.length = 78 ∧
    base64.Decode (removeCRLF (writeWrapped (base64.Encode (List.replicate 57 65)) 0 "").data)
      = some (List.replicate 57 65) :=
  have h := wrapped_payload_roundtrip (List.replicate 57 65)
  ⟨h.2.1, by decide, by decide, h.2.2.2⟩

end gomail
